import Mathlib

/-!
Verification development for the Birdactyl Go SDK plugin engine
(`plugin.go` / `sdk.go` / `ui.go`): shallow embedding of the connection
lifecycle, dispatch router, route matcher, mixin selection, schedule key
handling and config persistence, together with theorems settling the
frozen specification claims.

Modelling conventions:
* Go strings and byte slices are modelled as `List Char` (`Str`). All the
  functions under study compare whole strings or search for the ASCII
  characters `:` and `*`, so byte-level and rune-level views agree.
* Go's `encoding/json` is external to the repository; it is modelled by an
  executable codec over the `JVal` tree below. Numbers are modelled as
  integers and the HTML/`\u` escaping of the Go encoder is reduced to the
  escapes the decoder understands; neither simplification affects any
  claim under study. `json.Marshal` applied to a `map[string]interface{}`
  emits the keys in sorted order (documented Go behaviour), which is
  reflected where that shape occurs (`errorResponse`).
* Go map *lookup* is modelled by association-list lookup on unique keys;
  Go map *iteration* has unspecified order, so every function that ranges
  over a map takes the entry list of that particular run, and theorems
  quantify over permutations where the order matters.
-/

namespace Birdactyl

abbrev Str := List Char

/-! ### Character helpers -/

def isWs (c : Char) : Bool :=
  c = ' ' || c = '\n' || c = '\t' || c = '\r'

def isDigit10 (c : Char) : Bool :=
  48 ≤ c.toNat && c.toNat ≤ 57

def digitChar (d : Nat) : Char :=
  Char.ofNat (48 + d)

def skipWs : Str → Str
  | [] => []
  | c :: rest => if isWs c then skipWs rest else c :: rest

/-- All characters of the list are whitespace. -/
def wsOnly (s : Str) : Prop := ∀ c ∈ s, isWs c = true

/-- The list does not begin with a decimal digit. -/
def noDigitHead : Str → Prop
  | [] => True
  | c :: _ => isDigit10 c = false

/-! ### JSON document model (model of `encoding/json` values) -/

mutual
/-- A structured JSON document, as produced or consumed by the modelled
`encoding/json` codec. -/
inductive JVal : Type where
  | null : JVal
  | bool (b : Bool) : JVal
  | num (n : Int) : JVal
  | str (s : Str) : JVal
  | arr (items : JArr) : JVal
  | obj (fields : JObj) : JVal

/-- A JSON array of documents. -/
inductive JArr : Type where
  | nil : JArr
  | cons (hd : JVal) (tl : JArr) : JArr

/-- A JSON object: an ordered field list. -/
inductive JObj : Type where
  | nil : JObj
  | cons (k : Str) (v : JVal) (tl : JObj) : JObj
end

/-! ### Decimal digits (structural on a fuel bound so that the kernel
evaluates them) -/

def natToRevDigitsAux : Nat → Nat → Str
  | _, 0 => []
  | 0, _ + 1 => []
  | fuel + 1, n + 1 => digitChar ((n + 1) % 10) :: natToRevDigitsAux fuel ((n + 1) / 10)

/-- The decimal digits of `n`, least significant first. -/
def natToRevDigits (n : Nat) : Str := natToRevDigitsAux n n

def renderNat (n : Nat) : Str :=
  if n = 0 then ['0'] else (natToRevDigits n).reverse

def renderInt (i : Int) : Str :=
  if i < 0 then '-' :: renderNat i.natAbs else renderNat i.natAbs

/-! ### String escaping (model of the Go JSON string encoder) -/

def escapeChar (c : Char) : Str :=
  if c = '"' then ['\\', '"']
  else if c = '\\' then ['\\', '\\']
  else if c = '\n' then ['\\', 'n']
  else if c = '\t' then ['\\', 't']
  else if c = '\r' then ['\\', 'r']
  else [c]

def escapeStr : Str → Str
  | [] => []
  | c :: rest => escapeChar c ++ escapeStr rest

def unescapeChar (c : Char) : Option Char :=
  if c = '"' then some '"'
  else if c = '\\' then some '\\'
  else if c = 'n' then some '\n'
  else if c = 't' then some '\t'
  else if c = 'r' then some '\r'
  else none

/-! ### Pretty renderer (model of `json.MarshalIndent(v, "", "  ")`) -/

def indentChars (lvl : Nat) : Str := List.replicate (2 * lvl) ' '

/-- The keyword `null` as characters. -/
def litNull : Str := ['n', 'u', 'l', 'l']

/-- The keyword `true` as characters. -/
def litTrue : Str := ['t', 'r', 'u', 'e']

/-- The keyword `false` as characters. -/
def litFalse : Str := ['f', 'a', 'l', 's', 'e']

mutual
def renderVal : JVal → Nat → Str
  | .null, _ => litNull
  | .bool true, _ => litTrue
  | .bool false, _ => litFalse
  | .num n, _ => renderInt n
  | .str s, _ => '"' :: (escapeStr s ++ ['"'])
  | .arr .nil, _ => ['[', ']']
  | .arr (.cons h t), lvl =>
      '[' :: '\n' :: (renderArrItems (.cons h t) (lvl + 1) ++
        '\n' :: (indentChars lvl ++ [']']))
  | .obj .nil, _ => ['{', '}']
  | .obj (.cons k v t), lvl =>
      '{' :: '\n' :: (renderObjItems (.cons k v t) (lvl + 1) ++
        '\n' :: (indentChars lvl ++ ['}']))

def renderArrItems : JArr → Nat → Str
  | .nil, _ => []
  | .cons h .nil, lvl => indentChars lvl ++ renderVal h lvl
  | .cons h (.cons h2 t), lvl =>
      indentChars lvl ++ (renderVal h lvl ++
        ',' :: '\n' :: renderArrItems (.cons h2 t) lvl)

def renderObjItems : JObj → Nat → Str
  | .nil, _ => []
  | .cons k v .nil, lvl =>
      indentChars lvl ++ ('"' :: (escapeStr k ++ '"' :: ':' :: ' ' :: renderVal v lvl))
  | .cons k v (.cons k2 v2 t), lvl =>
      indentChars lvl ++ ('"' :: (escapeStr k ++ '"' :: ':' :: ' ' ::
        (renderVal v lvl ++ ',' :: '\n' :: renderObjItems (.cons k2 v2 t) lvl)))
end

/-- Model of `json.MarshalIndent(v, "", "  ")`. -/
def marshalIndent (v : JVal) : Str := renderVal v 0

mutual
/-- Model of compact `json.Marshal` on a document. -/
def renderC : JVal → Str
  | .null => litNull
  | .bool true => litTrue
  | .bool false => litFalse
  | .num n => renderInt n
  | .str s => '"' :: (escapeStr s ++ ['"'])
  | .arr a => '[' :: (renderCArr a ++ [']'])
  | .obj o => '{' :: (renderCObj o ++ ['}'])

def renderCArr : JArr → Str
  | .nil => []
  | .cons h .nil => renderC h
  | .cons h (.cons h2 t) => renderC h ++ ',' :: renderCArr (.cons h2 t)

def renderCObj : JObj → Str
  | .nil => []
  | .cons k v .nil => '"' :: (escapeStr k ++ '"' :: ':' :: renderC v)
  | .cons k v (.cons k2 v2 t) =>
      '"' :: (escapeStr k ++ '"' :: ':' :: (renderC v ++ ',' :: renderCObj (.cons k2 v2 t)))
end

def marshalCompact (v : JVal) : Str := renderC v

/-! ### Parser (model of `json.Unmarshal`; fuel-structural so it is total
and kernel-evaluable) -/

def expectLit : Str → Str → Option Str
  | [], s => some s
  | _ :: _, [] => none
  | c :: cs, d :: ds => if d = c then expectLit cs ds else none

def parseStringBody : Str → Option (Str × Str)
  | [] => none
  | c :: rest =>
    if c = '"' then some ([], rest)
    else if c = '\\' then
      match rest with
      | [] => none
      | d :: rest2 =>
        match unescapeChar d with
        | none => none
        | some e => (parseStringBody rest2).map (fun p => (e :: p.1, p.2))
    else (parseStringBody rest).map (fun p => (c :: p.1, p.2))

def parseDigits (acc : Nat) : Str → Nat × Str
  | [] => (acc, [])
  | c :: rest =>
    if isDigit10 c then parseDigits (acc * 10 + (c.toNat - 48)) rest
    else (acc, c :: rest)

def parseNum : Str → Option (Int × Str)
  | [] => none
  | c :: rest =>
    if c = '-' then
      match rest with
      | [] => none
      | d :: rest2 =>
        if isDigit10 d then
          let p := parseDigits 0 (d :: rest2)
          some (-(p.1 : Int), p.2)
        else none
    else if isDigit10 c then
      let p := parseDigits 0 (c :: rest)
      some ((p.1 : Int), p.2)
    else none

mutual
def parseVal : Nat → Str → Option (JVal × Str)
  | 0, _ => none
  | fuel + 1, s0 => parseValAt fuel (skipWs s0)
termination_by fuel _ => (fuel, 2)

def parseValAt : Nat → Str → Option (JVal × Str)
  | _, [] => none
  | fuel, c :: rest =>
    if c = '{' then
      match expectLit ['}'] (skipWs rest) with
      | some r2 => some (.obj .nil, r2)
      | none => (parseObjItems fuel rest).map (fun p => (.obj p.1, p.2))
    else if c = '[' then
      match expectLit [']'] (skipWs rest) with
      | some r2 => some (.arr .nil, r2)
      | none => (parseArrItems fuel rest).map (fun p => (.arr p.1, p.2))
    else if c = '"' then
      (parseStringBody rest).map (fun p => (.str p.1, p.2))
    else if c = 't' then
      (expectLit ['r', 'u', 'e'] rest).map (fun r => (.bool true, r))
    else if c = 'f' then
      (expectLit ['a', 'l', 's', 'e'] rest).map (fun r => (.bool false, r))
    else if c = 'n' then
      (expectLit ['u', 'l', 'l'] rest).map (fun r => (.null, r))
    else
      (parseNum (c :: rest)).map (fun p => (.num p.1, p.2))
termination_by fuel _ => (fuel, 1)

def parseArrItems : Nat → Str → Option (JArr × Str)
  | 0, _ => none
  | fuel + 1, s =>
    match parseVal fuel s with
    | none => none
    | some (v, r1) =>
      match skipWs r1 with
      | [] => none
      | c :: r2 =>
        if c = ',' then (parseArrItems fuel r2).map (fun p => (.cons v p.1, p.2))
        else if c = ']' then some (.cons v .nil, r2)
        else none
termination_by fuel _ => (fuel, 0)

def parseObjItems : Nat → Str → Option (JObj × Str)
  | 0, _ => none
  | fuel + 1, s =>
    match skipWs s with
    | [] => none
    | c :: r1 =>
      if c = '"' then
        match parseStringBody r1 with
        | none => none
        | some (k, r2) =>
          match skipWs r2 with
          | [] => none
          | c2 :: r3 =>
            if c2 = ':' then
              match parseVal fuel r3 with
              | none => none
              | some (v, r4) =>
                match skipWs r4 with
                | [] => none
                | c3 :: r5 =>
                  if c3 = ',' then
                    (parseObjItems fuel r5).map (fun p => (.cons k v p.1, p.2))
                  else if c3 = '}' then some (.cons k v .nil, r5)
                  else none
            else none
      else none
termination_by fuel _ => (fuel, 0)
end

/-- Model of `json.Unmarshal` on a whole document. -/
def unmarshal (s : Str) : Option JVal :=
  match parseVal (s.length + 1) s with
  | none => none
  | some (v, r) =>
    match skipWs r with
    | [] => some v
    | _ :: _ => none

/-! ### Fuel requirements of the parser -/

mutual
def needVal : JVal → Nat
  | .null => 1
  | .bool _ => 1
  | .num _ => 1
  | .str _ => 1
  | .arr a => 1 + needArr a
  | .obj o => 1 + needObj o

def needArr : JArr → Nat
  | .nil => 1
  | .cons h t => 1 + max (needVal h) (needArr t)

def needObj : JObj → Nat
  | .nil => 1
  | .cons _ v t => 1 + max (needVal v) (needObj t)
end

/-! ### SDK value types (`sdk.go`) -/

/-- `Event` as handed to an event handler. -/
structure GoEvent where
  «Type» : Str
  Data : List (Str × Str)
  Sync : Bool

/-- `EventResult`. -/
structure EventResult where
  allow : Bool
  message : Str

def Allow : EventResult := { allow := true, message := [] }

def Block (message : Str) : EventResult := { allow := false, message := message }

/-- `Request` as handed to a route handler. `Body` is the opportunistically
parsed form (`nil` map when the raw body is not a JSON object). -/
structure Request where
  Method : Str
  Path : Str
  Headers : List (Str × Str)
  Query : List (Str × Str)
  Body : Option JObj
  RawBody : Str
  UserID : Str

/-- `Response` as returned by a route handler. -/
structure Response where
  Status : Int
  Headers : List (Str × Str)
  body : Str

/-- `AddonTypeRequest`. -/
structure AddonTypeRequest where
  TypeID : Str
  ServerID : Str
  NodeID : Str
  DownloadURL : Str
  FileName : Str
  InstallPath : Str
  SourceInfo : List (Str × Str)
  ServerVariables : List (Str × Str)

abbrev AddonActionType := Int

/-- `AddonInstallAction`. -/
structure AddonInstallAction where
  «Type» : AddonActionType
  URL : Str := []
  Path : Str := []
  Content : Str := []
  Command : Str := []
  Headers : List (Str × Str) := []
  NodePayload : Str := []
  NodeEndpoint : Str := []

/-- `AddonTypeResponse`. -/
structure AddonTypeResponse where
  Success : Bool
  Error : Str := []
  Message : Str := []
  Actions : List AddonInstallAction := []

/-- Modelled from the spec: the mixin notification record
{title, message, type}; its Go definition is not among the provided
sources. -/
structure GoNotification where
  Title : Str
  Message : Str
  «Type» : Str

/-- Modelled from the spec: the mixin context {target name, correlation id,
input map, chain-data map}; its Go definition is not among the provided
sources. -/
structure MixinContext where
  Target : Str
  RequestID : Str
  input : Option JObj
  chainData : Option JObj

/-- Modelled from the spec: the mixin result {action verdict, optional
output map, optional modified-input map, optional error text, list of
notifications}; its Go definition is not among the provided sources. -/
structure MixinResult where
  action : Int
  output : Option JVal := none
  modifiedInput : Option JVal := none
  err : Str := []
  notifications : List GoNotification := []

abbrev MixinHandler := MixinContext → MixinResult

/-- Modelled from the spec: the mixin registration record
{target, priority, handler}; its Go definition is not among the provided
sources (`plugin.go` appends and scans these records). -/
structure MixinRegistration where
  Target : Str
  Priority : Int
  Handler : MixinHandler

abbrev EventHandler := GoEvent → EventResult
abbrev RouteHandler := Request → Response
abbrev ScheduleHandler := Unit → Unit
abbrev AddonTypeHandler := AddonTypeRequest → AddonTypeResponse

/-- `RouteConfig` (rate-limit fields default to Go zero values, as in
`Plugin.Route`). -/
structure RouteConfig where
  Method : Str
  Path : Str
  Handler : RouteHandler
  RateLimitPreset : Str := []
  RateLimitRPM : Int := 0
  RateLimitBurst : Int := 0

/-! ### Wire message types (the `pb` protobuf shapes used by `plugin.go`) -/

structure PbEvent where
  «Type» : Str
  Data : List (Str × Str)
  Sync : Bool

structure PbHTTPRequest where
  Method : Str
  Path : Str
  Headers : List (Str × Str)
  Query : List (Str × Str)
  Body : Str
  UserId : Str

structure PbHTTPResponse where
  Status : Int
  Headers : List (Str × Str)
  Body : Str

structure PbScheduleRequest where
  ScheduleId : Str

structure PbMixinRequest where
  Target : Str
  RequestId : Str
  Input : Str
  ChainData : Str

structure PbNotification where
  Title : Str
  Message : Str
  «Type» : Str

structure PbMixinResponse where
  Action : Int
  Output : Option Str := none
  Error : Str := []
  ModifiedInput : Option Str := none
  Notifications : List PbNotification := []

structure PbAddonTypeRequest where
  TypeId : Str
  ServerId : Str
  NodeId : Str
  DownloadUrl : Str
  FileName : Str
  InstallPath : Str
  SourceInfo : List (Str × Str)
  ServerVariables : List (Str × Str)

structure PbAddonInstallAction where
  «Type» : Int
  Url : Str
  Path : Str
  Content : Str
  Command : Str
  Headers : List (Str × Str)
  NodePayload : Str
  NodeEndpoint : Str

structure PbAddonTypeResponse where
  Success : Bool
  Error : Str := []
  Message : Str := []
  Actions : List PbAddonInstallAction := []

/-- Modelled from the spec: the numeric code of the chain-continue (NEXT)
verdict `pb.MixinResponse_NEXT`; the generated protobuf enum is not among
the provided sources. The engine only passes the code through. -/
def mixinActionNEXT : Int := 1

/-- Payload kinds of an inbound `pb.PanelMessage`. -/
inductive PanelPayload where
  | event (e : PbEvent)
  | http (r : PbHTTPRequest)
  | scheduleTrig (r : PbScheduleRequest)
  | mixinCall (r : PbMixinRequest)
  | addonTypeCall (r : PbAddonTypeRequest)
  | shutdown
  | registered

structure PanelMessage where
  RequestId : Str
  Payload : PanelPayload

/-- Payload kinds of an outbound `pb.PluginMessage`. -/
inductive PluginPayload where
  | eventResponse (allow : Bool) (message : Str)
  | httpResponse (r : PbHTTPResponse)
  | scheduleResponse
  | mixinResponse (r : PbMixinResponse)
  | addonTypeResponse (r : PbAddonTypeResponse)
  | register

structure PluginMessage where
  RequestId : Str := []
  Payload : PluginPayload

/-! ### Handler registries (Go maps as unique-key association lists) -/

/-- Go map assignment `m[k] = v`: overwrite the entry for `k` if present,
otherwise add one. -/
def mapWrite : List (Str × α) → Str → α → List (Str × α)
  | [], k, v => [(k, v)]
  | (k0, v0) :: rest, k, v =>
    if k0 = k then (k, v) :: rest else (k0, v0) :: mapWrite rest k v

/-- Go map lookup `m[k]` (entries have unique keys). -/
def lookupAssoc : List (Str × α) → Str → Option α
  | [], _ => none
  | (k0, v0) :: rest, k => if k0 = k then some v0 else lookupAssoc rest k

/-- The composite key `method+":"+path` used by `Plugin.Route` and
`Plugin.handleHTTP`. -/
def routeKey (method pa : Str) : Str := method ++ ':' :: pa

/-- `Plugin.Route`: register the route under its composite key. -/
def routeAdd (routes : List (Str × RouteConfig)) (method pa : Str)
    (handler : RouteHandler) : List (Str × RouteConfig) :=
  mapWrite routes (routeKey method pa) { Method := method, Path := pa, Handler := handler }

/-- The composite key `id+":"+cron` used by `Plugin.Schedule`. -/
def scheduleKey (id cron : Str) : Str := id ++ ':' :: cron

/-- `Plugin.Schedule`: store the handler under `id+":"+cron`. -/
def scheduleRegister (sched : List (Str × ScheduleHandler)) (id cron : Str)
    (h : ScheduleHandler) : List (Str × ScheduleHandler) :=
  mapWrite sched (scheduleKey id cron) h

/-- `Plugin.MixinWithPriority`: append the registration. -/
def mixinAdd (mixins : List MixinRegistration) (target : Str) (priority : Int)
    (handler : MixinHandler) : List MixinRegistration :=
  mixins ++ [{ Target := target, Priority := priority, Handler := handler }]

/-! ### `splitKey` and `matchPath` (`plugin.go`) -/

/-- `splitKey`: split at the first `:`; `(key, "")` when there is none. -/
def splitKey : Str → Str × Str
  | [] => ([], [])
  | c :: rest =>
    if c = ':' then ([], rest)
    else
      let p := splitKey rest
      (c :: p.1, p.2)

/-- `matchPath`: exact equality, or a trailing-`*` pattern whose prefix
before the `*` starts the path (`pattern.getLast? = some '*'` captures
Go's `len(pattern) > 0 && pattern[len(pattern)-1] == '*'`). -/
def matchPath (pattern path : Str) : Bool :=
  if pattern = path then true
  else if pattern.getLast? = some '*' then
    decide (pattern.length - 1 ≤ path.length ∧
      path.take (pattern.length - 1) = pattern.take (pattern.length - 1))
  else false

/-! ### Dispatch (`plugin.go` `handle*` functions) -/

/-- `errorResponse` body bytes: Go's `json.Marshal` of
`map[string]interface{}{"success": false, "error": msg}` — map keys are
emitted in sorted order, so `error` precedes `success`. -/
def jsonErrorBody (msg : Str) : Str :=
  "\x7b\"error\":\"".toList ++ escapeStr msg ++ "\",\"success\":false\x7d".toList

def contentTypeJson : Str × Str := ("Content-Type".toList, "application/json".toList)

/-- `errorResponse`. -/
def errorResponse (status : Int) (msg : Str) : PbHTTPResponse :=
  { Status := status, Headers := [contentTypeJson], Body := jsonErrorBody msg }

/-- `json.Unmarshal(raw, &body)` for `body : map[string]interface{}`:
the map stays `nil` unless the raw bytes decode to a JSON object. -/
def parseBodyGo (raw : Str) : Option JObj :=
  match unmarshal raw with
  | some (.obj o) => some o
  | _ => none

/-- Whether a registered route satisfies the wildcard-scan condition
`(c.Method == "*" || c.Method == req.Method) && matchPath(c.Path, req.Path)`. -/
def entryMatches (method pa : Str) (e : Str × RouteConfig) : Prop :=
  (e.2.Method = ['*'] ∨ e.2.Method = method) ∧ matchPath e.2.Path pa = true

instance (method pa : Str) (e : Str × RouteConfig) :
    Decidable (entryMatches method pa e) := by
  unfold entryMatches; infer_instance

/-- The `for _, c := range p.routes` scan of `handleHTTP`, over the entry
list of this run's map iteration. -/
def scanRoutes : List (Str × RouteConfig) → Str → Str → Option RouteConfig
  | [], _, _ => none
  | e :: rest, method, pa =>
    if entryMatches method pa e then some e.2 else scanRoutes rest method pa

/-- Route resolution of `handleHTTP`: exact composite-key lookup first,
wildcard scan only when the lookup misses. -/
def resolveRoute (routes : List (Str × RouteConfig)) (method pa : Str) :
    Option RouteConfig :=
  match lookupAssoc routes (routeKey method pa) with
  | some c => some c
  | none => scanRoutes routes method pa

/-- `Plugin.handleHTTP`. -/
def handleHTTP (routes : List (Str × RouteConfig)) (req : PbHTTPRequest) :
    PluginMessage :=
  match resolveRoute routes req.Method req.Path with
  | none => { Payload := .httpResponse (errorResponse 404 "not found".toList) }
  | some cfg =>
    let resp := cfg.Handler
      { Method := req.Method, Path := req.Path, Headers := req.Headers,
        Query := req.Query, Body := parseBodyGo req.Body, RawBody := req.Body,
        UserID := req.UserId }
    { Payload := .httpResponse
        { Status := resp.Status, Headers := resp.Headers, Body := resp.body } }

/-- `Plugin.handleEvent`. -/
def handleEvent (events : List (Str × EventHandler)) (ev : PbEvent) :
    PluginMessage :=
  match lookupAssoc events ev.«Type» with
  | none => { Payload := .eventResponse true [] }
  | some handler =>
    let result := handler { «Type» := ev.«Type», Data := ev.Data, Sync := ev.Sync }
    { Payload := .eventResponse result.allow result.message }

/-- The `for key, handler := range p.schedule` loop of `handleSchedule`:
the first entry (in this run's iteration order) whose key part before the
first `:` equals the trigger id. -/
def findScheduled : List (Str × α) → Str → Option α
  | [], _ => none
  | (key, h) :: rest, sid =>
    if (splitKey key).1 = sid then some h else findScheduled rest sid

/-- `Plugin.handleSchedule`: run at most one matching handler (returned
here as the invoked handler) and always answer with an empty
acknowledgement. -/
def handleSchedule (sched : List (Str × ScheduleHandler)) (req : PbScheduleRequest) :
    Option ScheduleHandler × PluginMessage :=
  (findScheduled sched req.ScheduleId, { Payload := .scheduleResponse })

/-- The `for _, m := range p.mixins` loop of `handleMixin` with its
`break`: the first registration whose target equals the call's target. -/
def selectMixinHandler : List MixinRegistration → Str → Option MixinHandler
  | [], _ => none
  | m :: rest, t => if m.Target = t then some m.Handler else selectMixinHandler rest t

/-- The body of `handleMixin` once a handler was selected: decode input and
chain data, invoke the handler, translate the result. -/
def mixinRespond (h : MixinHandler) (req : PbMixinRequest) : PluginMessage :=
  let input := parseBodyGo req.Input
  let chainData := if 0 < req.ChainData.length then parseBodyGo req.ChainData else none
  let result := h { Target := req.Target, RequestID := req.RequestId,
                    input := input, chainData := chainData }
  { Payload := .mixinResponse
      { Action := result.action,
        Output := result.output.map marshalCompact,
        Error := result.err,
        ModifiedInput := result.modifiedInput.map marshalCompact,
        Notifications := result.notifications.map
          (fun n => { Title := n.Title, Message := n.Message, «Type» := n.«Type» }) } }

/-- `Plugin.handleMixin`. -/
def handleMixin (mixins : List MixinRegistration) (req : PbMixinRequest) :
    PluginMessage :=
  match selectMixinHandler mixins req.Target with
  | none => { Payload := .mixinResponse { Action := mixinActionNEXT } }
  | some h => mixinRespond h req

/-- `Plugin.handleAddonType`. -/
def handleAddonType (addonTypes : List (Str × AddonTypeHandler))
    (req : PbAddonTypeRequest) : PluginMessage :=
  match lookupAssoc addonTypes req.TypeId with
  | none =>
    { Payload := .addonTypeResponse
        { Success := false, Error := "addon type handler not found".toList } }
  | some handler =>
    let result := handler
      { TypeID := req.TypeId, ServerID := req.ServerId, NodeID := req.NodeId,
        DownloadURL := req.DownloadUrl, FileName := req.FileName,
        InstallPath := req.InstallPath, SourceInfo := req.SourceInfo,
        ServerVariables := req.ServerVariables }
    { Payload := .addonTypeResponse
        { Success := result.Success, Error := result.Error,
          Message := result.Message,
          Actions := result.Actions.map (fun a =>
            { «Type» := a.«Type», Url := a.URL, Path := a.Path, Content := a.Content,
              Command := a.Command, Headers := a.Headers,
              NodePayload := a.NodePayload, NodeEndpoint := a.NodeEndpoint }) } }

/-! ### Connection lifecycle (`Plugin.Start`, `handleMessage`) -/

/-- A pending outbound call's single-slot receptacle (`chan *pb.PanelMessage`):
`waiting` until a value is sent on it. -/
inductive PendingSlot where
  | waiting
  | fulfilled (m : PanelMessage)

/-- The plugin state visible to the receive loop. Registries are the entry
lists of this run; `pending` is the correlation table. -/
structure Plugin where
  id : Str
  name : Str
  version : Str
  events : List (Str × EventHandler)
  routes : List (Str × RouteConfig)
  schedule : List (Str × ScheduleHandler)
  mixins : List MixinRegistration
  addonTypes : List (Str × AddonTypeHandler)
  pending : List (Str × PendingSlot)

/-- What one `handleMessage` call does with an inbound envelope. -/
inductive HandleOutcome where
  | reply (resp : PluginMessage)
  | silent
  | exitProcess (code : Nat)

/-- `Plugin.handleMessage`: classify by payload kind; `Shutdown` calls
`os.Exit(0)`; unknown kinds (here: a stray `Registered`) are ignored. The
plugin state is read, never written. -/
def handleMessage (p : Plugin) (msg : PanelMessage) : HandleOutcome :=
  match msg.Payload with
  | .event e => .reply { handleEvent p.events e with RequestId := msg.RequestId }
  | .http r => .reply { handleHTTP p.routes r with RequestId := msg.RequestId }
  | .scheduleTrig r =>
      .reply { (handleSchedule p.schedule r).2 with RequestId := msg.RequestId }
  | .mixinCall r => .reply { handleMixin p.mixins r with RequestId := msg.RequestId }
  | .addonTypeCall r =>
      .reply { handleAddonType p.addonTypes r with RequestId := msg.RequestId }
  | .shutdown => .exitProcess 0
  | .registered => .silent

/-- How the inbound stream ends after the listed envelopes. -/
inductive StreamEnd where
  | eof
  | terr (e : Str)

/-- How the receive loop of `Start` ends: `returned none` models
`return nil` (EOF), `returned (some e)` models `return err`, `exited`
models `os.Exit`. -/
inductive LoopExit where
  | returned (err : Option Str)
  | exited (code : Nat)

/-- The steady-state receive loop of `Plugin.Start`: recv each envelope,
dispatch it, send any reply; EOF returns `nil`, a transport error returns
that error, a Shutdown envelope exits the process. Returns the loop exit,
the replies sent, and the plugin state as the loop left it. -/
def runLoop (p : Plugin) : List PanelMessage → StreamEnd →
    LoopExit × List PluginMessage × Plugin
  | [], .eof => (.returned none, [], p)
  | [], .terr e => (.returned (some e), [], p)
  | m :: rest, fin =>
    match handleMessage p m with
    | .exitProcess c => (.exited c, [], p)
    | .reply r =>
      let t := runLoop p rest fin
      (t.1, r :: t.2.1, t.2.2)
    | .silent => runLoop p rest fin

/-- Outcome of the first blocking `stream.Recv()` of the handshake:
`ok` a message, or `fail` a non-nil error (gRPC reports EOF as the error
`io.EOF`). -/
inductive RecvOutcome where
  | ok (m : PanelMessage)
  | fail (e : Str)

/-- Outcome of `Plugin.Start` from the registration send onward:
`preLoopReturn e` means Start returned before entering the receive loop
(`e = none` is a nil error), `loopEnd` means the receive loop ran. -/
inductive StartOutcome where
  | preLoopReturn (err : Option Str)
  | loopEnd (e : LoopExit) (sent : List PluginMessage) (final : Plugin)

/-- `Plugin.Start` after sending the Registration envelope: one blocking
receive; a recv error is returned as-is; `msg.GetRegistered() == nil`
hits `return err` with `err` already nil; otherwise the receive loop
runs. -/
def startAfterConnect (p : Plugin) (firstRecv : RecvOutcome)
    (msgs : List PanelMessage) (fin : StreamEnd) : StartOutcome :=
  match firstRecv with
  | .fail e => .preLoopReturn (some e)
  | .ok m =>
    match m.Payload with
    | .registered =>
      let t := runLoop p msgs fin
      .loopEnd t.1 t.2.1 t.2.2
    | _ => .preLoopReturn none

/-! ### Config persistence (`SaveConfig` / `LoadConfig`) over a file-system
model -/

/-- The file system as a path → contents map. -/
abbrev FS := List (Str × Str)

def fsRead (fs : FS) (path : Str) : Option Str := lookupAssoc fs path

def fsWrite (fs : FS) (path : Str) (data : Str) : FS := mapWrite fs path data

/-- `filepath.Join(dataDir, "config.json")` (`Plugin.DataPath`). -/
def configPath (dataDir : Str) : Str :=
  if dataDir = [] then "config.json".toList else dataDir ++ '/' :: "config.json".toList

inductive GoFileError where
  | enoent
  | jsonDecode

/-- `Plugin.SaveConfig`: pretty-marshal and write `<data-dir>/config.json`. -/
def SaveConfig (fs : FS) (dataDir : Str) (v : JVal) : FS :=
  fsWrite fs (configPath dataDir) (marshalIndent v)

/-- `Plugin.LoadConfig`: read `<data-dir>/config.json` (a missing file is
an error returned to the caller) and unmarshal it. -/
def LoadConfig (fs : FS) (dataDir : Str) : Except GoFileError JVal :=
  match fsRead fs (configPath dataDir) with
  | none => .error .enoent
  | some data =>
    match unmarshal data with
    | none => .error .jsonDecode
    | some v => .ok v

/-! ### Concrete fixtures used by the claim theorems -/

def itemsHandler : RouteHandler :=
  fun _ => { Status := 200, Headers := [], body := [] }

def cfgItemsSlashStar : RouteConfig :=
  { Method := "GET".toList, Path := "/items/*".toList, Handler := itemsHandler }

def cfgItemsStar : RouteConfig :=
  { Method := "GET".toList, Path := "/items*".toList, Handler := itemsHandler }

def cfgItems42 : RouteConfig :=
  { Method := "GET".toList, Path := "/items/42".toList, Handler := itemsHandler }

def cfgPostItems : RouteConfig :=
  { Method := "POST".toList, Path := "/items".toList, Handler := itemsHandler }

def entrySlashStar : Str × RouteConfig :=
  (routeKey "GET".toList "/items/*".toList, cfgItemsSlashStar)

def entryStar : Str × RouteConfig :=
  (routeKey "GET".toList "/items*".toList, cfgItemsStar)

def entryItems42 : Str × RouteConfig :=
  (routeKey "GET".toList "/items/42".toList, cfgItems42)

/-- The spec scenario registry: `POST /items` and `GET /items/*`. -/
def specRoutes : List (Str × RouteConfig) :=
  [(routeKey "POST".toList "/items".toList, cfgPostItems), entrySlashStar]

def deleteItemsReq : PbHTTPRequest :=
  { Method := "DELETE".toList, Path := "/items".toList, Headers := [], Query := [],
    Body := [], UserId := [] }

/-- The byte sequence the spec claims for the 404 body. -/
def claimedNotFoundBody : Str :=
  "\x7b\"success\":false,\"error\":\"not found\"\x7d".toList

def pluginWithPending : Plugin :=
  { id := "demo".toList, name := "demo".toList, version := "1.0.0".toList,
    events := [], routes := [], schedule := [], mixins := [], addonTypes := [],
    pending := [("corr-1".toList, .waiting)] }

def badFirstReply : PanelMessage :=
  { RequestId := "h1".toList,
    Payload := .event { «Type» := "server.start".toList, Data := [], Sync := false } }

def evHandlerBlock : EventHandler := fun _ => Block "denied".toList

def evUnknown : PbEvent := { «Type» := "unknown.event".toList, Data := [], Sync := false }

def pluginC8 : Plugin :=
  { id := "demo".toList, name := "demo".toList, version := "1.0.0".toList,
    events := [("other.event".toList, evHandlerBlock)], routes := [], schedule := [],
    mixins := [], addonTypes := [], pending := [] }

def mixinHandlerOne : MixinHandler := fun _ => { action := 1 }

def mixinHandlerTwo : MixinHandler := fun _ => { action := 2 }

def mixinRegOne : MixinRegistration :=
  { Target := "server.create".toList, Priority := 5, Handler := mixinHandlerOne }

def mixinRegTwo : MixinRegistration :=
  { Target := "server.create".toList, Priority := 9, Handler := mixinHandlerTwo }

def mixinReqT : PbMixinRequest :=
  { Target := "server.create".toList, RequestId := "m1".toList, Input := [],
    ChainData := [] }

def schedHandler : ScheduleHandler := fun _ => ()

def fsEmpty : FS := []

def configDoc : JVal :=
  .obj (.cons "port".toList (.num 8080) (.cons "name".toList (.str "bird".toList) .nil))

def dataDirEx : Str := "demo_data".toList

/-! ## Lemmas: whitespace, literals, digits, strings -/

theorem wsOnly_nil : wsOnly [] := fun c hc => absurd hc (List.not_mem_nil c)

theorem wsOnly_cons {c : Char} {s : Str} (hc : isWs c = true) (hs : wsOnly s) :
    wsOnly (c :: s) := by
  intro d hd
  rcases List.mem_cons.1 hd with rfl | h
  · exact hc
  · exact hs d h

theorem wsOnly_append {a b : Str} (ha : wsOnly a) (hb : wsOnly b) : wsOnly (a ++ b) := by
  intro c hc
  rcases List.mem_append.1 hc with h | h
  · exact ha c h
  · exact hb c h

theorem wsOnly_indentChars (lvl : Nat) : wsOnly (indentChars lvl) := by
  intro c hc
  rw [indentChars] at hc
  rw [List.eq_of_mem_replicate hc]
  rfl

theorem skipWs_not_ws {c : Char} (h : isWs c = false) (s : Str) :
    skipWs (c :: s) = c :: s := by
  simp [skipWs, h]

theorem skipWs_ws_append {ws : Str} (h : wsOnly ws) (s : Str) :
    skipWs (ws ++ s) = skipWs s := by
  induction ws with
  | nil => rfl
  | cons c rest ih =>
    have hc : isWs c = true := h c (List.mem_cons_self c rest)
    have hrest : wsOnly rest := fun d hd => h d (List.mem_cons_of_mem c hd)
    simp [skipWs, hc, ih hrest]

theorem skipWs_to {ws : Str} (h : wsOnly ws) {c : Char} (hc : isWs c = false) (s : Str) :
    skipWs (ws ++ c :: s) = c :: s := by
  rw [skipWs_ws_append h, skipWs_not_ws hc]

theorem expectLit_self (lit : Str) : ∀ rest, expectLit lit (lit ++ rest) = some rest := by
  induction lit with
  | nil => intro rest; rfl
  | cons c cs ih => intro rest; simp [expectLit, ih]

theorem expectLit_single_ne {c c0 : Char} (h : c ≠ c0) (s : Str) :
    expectLit [c0] (c :: s) = none := by
  simp [expectLit, h]

theorem ws_char_cases {c : Char} (h : isWs c = true) :
    c = ' ' ∨ c = '\n' ∨ c = '\t' ∨ c = '\r' := by
  rw [isWs] at h
  simp only [Bool.or_eq_true, decide_eq_true_eq] at h
  tauto

theorem digit_not_ws {c : Char} (h : isDigit10 c = true) : isWs c = false := by
  cases hw : isWs c
  · rfl
  · rcases ws_char_cases hw with rfl | rfl | rfl | rfl <;> exact absurd h (by decide)

theorem digit_ne_c {c x : Char} (h : isDigit10 c = true) (hx : isDigit10 x = false) :
    c ≠ x := by
  intro e
  rw [e, hx] at h
  cases h

theorem digitChar_spec {d : Nat} (h : d < 10) :
    isDigit10 (digitChar d) = true ∧ (digitChar d).toNat - 48 = d := by
  interval_cases d <;> exact ⟨by decide, by decide⟩

theorem natToRevDigitsAux_zero (fuel : Nat) : natToRevDigitsAux fuel 0 = [] := by
  cases fuel <;> rfl

theorem natToRevDigitsAux_irrel : ∀ f1 f2 n, n ≤ f1 → n ≤ f2 →
    natToRevDigitsAux f1 n = natToRevDigitsAux f2 n := by
  intro f1
  induction f1 with
  | zero =>
    intro f2 n h1 h2
    have : n = 0 := by omega
    subst this
    rw [natToRevDigitsAux_zero, natToRevDigitsAux_zero]
  | succ g ih =>
    intro f2 n h1 h2
    cases n with
    | zero => rw [natToRevDigitsAux_zero, natToRevDigitsAux_zero]
    | succ m =>
      cases f2 with
      | zero => omega
      | succ g2 =>
        simp only [natToRevDigitsAux]
        exact congrArg _ (ih g2 ((m + 1) / 10) (by omega) (by omega))

theorem natToRevDigits_zero : natToRevDigits 0 = [] := rfl

theorem natToRevDigits_unfold {n : Nat} (h : 0 < n) :
    natToRevDigits n = digitChar (n % 10) :: natToRevDigits (n / 10) := by
  obtain ⟨m, rfl⟩ : ∃ m, n = m + 1 := ⟨n - 1, by omega⟩
  show natToRevDigitsAux (m + 1) (m + 1) = _
  simp only [natToRevDigitsAux]
  exact congrArg _ (natToRevDigitsAux_irrel m ((m + 1) / 10) ((m + 1) / 10) (by omega) le_rfl)

theorem natToRevDigits_all_digits : ∀ n, ∀ c ∈ natToRevDigits n, isDigit10 c = true := by
  intro n
  induction n using Nat.strong_induction_on with
  | _ n ih =>
    intro c hc
    rcases Nat.eq_zero_or_pos n with rfl | hn
    · rw [natToRevDigits_zero] at hc
      cases hc
    · rw [natToRevDigits_unfold hn] at hc
      rcases List.mem_cons.1 hc with rfl | h2
      · exact (digitChar_spec (Nat.mod_lt _ (by omega))).1
      · exact ih (n / 10) (by omega) c h2

theorem parseDigits_stop {rest : Str} (h : noDigitHead rest) (acc : Nat) :
    parseDigits acc rest = (acc, rest) := by
  cases rest with
  | nil => rfl
  | cons c t =>
    have hc : isDigit10 c = false := h
    simp [parseDigits, hc]

theorem parseDigits_rev (n : Nat) : ∀ acc rest,
    parseDigits acc ((natToRevDigits n).reverse ++ rest) =
      parseDigits (acc * 10 ^ (natToRevDigits n).length + n) rest := by
  induction n using Nat.strong_induction_on with
  | _ n ih =>
    intro acc rest
    rcases Nat.eq_zero_or_pos n with rfl | hn
    · simp [natToRevDigits_zero]
    · rw [natToRevDigits_unfold hn]
      simp only [List.reverse_cons, List.length_cons, List.append_assoc,
        List.singleton_append]
      rw [ih (n / 10) (by omega)]
      have hd := digitChar_spec (show n % 10 < 10 from Nat.mod_lt _ (by omega))
      have hstep : parseDigits (acc * 10 ^ (natToRevDigits (n / 10)).length + n / 10)
          (digitChar (n % 10) :: rest) =
          parseDigits ((acc * 10 ^ (natToRevDigits (n / 10)).length + n / 10) * 10
            + (n % 10)) rest := by
        simp [parseDigits, hd.1, hd.2]
      rw [hstep]
      congr 1
      have hmod : 10 * (n / 10) + n % 10 = n := Nat.div_add_mod n 10
      calc (acc * 10 ^ (natToRevDigits (n / 10)).length + n / 10) * 10 + n % 10
          = acc * (10 ^ (natToRevDigits (n / 10)).length * 10)
            + (10 * (n / 10) + n % 10) := by ring
        _ = acc * 10 ^ ((natToRevDigits (n / 10)).length + 1) + n := by
            rw [pow_succ, hmod]

theorem parseDigits_renderNat (n : Nat) {rest : Str} (h : noDigitHead rest) :
    parseDigits 0 (renderNat n ++ rest) = (n, rest) := by
  rw [renderNat]
  rcases Nat.eq_zero_or_pos n with rfl | hn
  · rw [if_pos rfl]
    show parseDigits 0 ('0' :: rest) = (0, rest)
    have h1 : isDigit10 '0' = true := by decide
    have h2 : 0 * 10 + ('0'.toNat - 48) = 0 := by decide
    simp only [parseDigits, h1, if_true, h2]
    exact parseDigits_stop h 0
  · rw [if_neg (by omega)]
    rw [parseDigits_rev]
    simp [parseDigits_stop h]

theorem renderNat_head (n : Nat) :
    ∃ c t, renderNat n = c :: t ∧ isDigit10 c = true := by
  rw [renderNat]
  rcases Nat.eq_zero_or_pos n with rfl | hn
  · exact ⟨'0', [], by simp, by decide⟩
  · rw [if_neg (by omega)]
    have hne : (natToRevDigits n).reverse ≠ [] := by
      simp only [ne_eq, List.reverse_eq_nil_iff]
      rw [natToRevDigits_unfold hn]
      simp
    obtain ⟨c, t, hct⟩ := List.exists_cons_of_ne_nil hne
    refine ⟨c, t, hct, ?_⟩
    have hmem : c ∈ natToRevDigits n := by
      rw [← List.mem_reverse, hct]
      exact List.mem_cons_self c t
    exact natToRevDigits_all_digits n c hmem

theorem parseNum_cons (c : Char) (rest : Str) :
    parseNum (c :: rest) =
      if c = '-' then
        match rest with
        | [] => none
        | d :: rest2 =>
          if isDigit10 d then
            let p := parseDigits 0 (d :: rest2)
            some (-(p.1 : Int), p.2)
          else none
      else if isDigit10 c then
        let p := parseDigits 0 (c :: rest)
        some ((p.1 : Int), p.2)
      else none := rfl

theorem parseNum_renderInt (i : Int) {rest : Str} (h : noDigitHead rest) :
    parseNum (renderInt i ++ rest) = some (i, rest) := by
  obtain ⟨c, t, hct, hd⟩ := renderNat_head i.natAbs
  have hpd : parseDigits 0 (c :: (t ++ rest)) = (i.natAbs, rest) := by
    have h2 := parseDigits_renderNat i.natAbs h
    rw [hct] at h2
    simpa using h2
  have hdm : ¬ (c = '-') := digit_ne_c hd (by decide)
  rw [renderInt]
  by_cases hneg : i < 0
  · rw [if_pos hneg, hct]
    have habs : -((i.natAbs : Int)) = i := by omega
    show parseNum ('-' :: (c :: (t ++ rest))) = some (i, rest)
    rw [parseNum_cons, if_pos rfl]
    show (if isDigit10 c then
        let p := parseDigits 0 (c :: (t ++ rest))
        some (-(p.1 : Int), p.2)
      else none) = some (i, rest)
    rw [if_pos hd, hpd]
    show some (-((i.natAbs : Int)), rest) = some (i, rest)
    rw [habs]
  · rw [if_neg hneg, hct]
    have habs : ((i.natAbs : Int)) = i := by omega
    show parseNum (c :: (t ++ rest)) = some (i, rest)
    rw [parseNum_cons, if_neg hdm, if_pos hd, hpd]
    show some (((i.natAbs : Int)), rest) = some (i, rest)
    rw [habs]

theorem parseStringBody_cons (c : Char) (rest : Str) :
    parseStringBody (c :: rest) =
      if c = '"' then some ([], rest)
      else if c = '\\' then
        match rest with
        | [] => none
        | d :: rest2 =>
          match unescapeChar d with
          | none => none
          | some e => (parseStringBody rest2).map (fun p => (e :: p.1, p.2))
      else (parseStringBody rest).map (fun p => (c :: p.1, p.2)) := by
  cases rest with
  | nil => rw [parseStringBody.eq_2]
  | cons d rest2 => rw [parseStringBody.eq_3]

theorem parseStringBody_escape : ∀ (s rest : Str),
    parseStringBody (escapeStr s ++ '"' :: rest) = some (s, rest) := by
  intro s
  induction s with
  | nil =>
    intro rest
    show parseStringBody ('"' :: rest) = some ([], rest)
    rw [parseStringBody_cons, if_pos rfl]
  | cons c s ih =>
    intro rest
    show parseStringBody ((escapeChar c ++ escapeStr s) ++ '"' :: rest) = _
    rw [escapeChar]
    by_cases h1 : c = '"'
    · subst h1
      rw [if_pos rfl]
      show (parseStringBody (escapeStr s ++ '"' :: rest)).map
        (fun p => ('"' :: p.1, p.2)) = _
      rw [ih]
      rfl
    · rw [if_neg h1]
      by_cases h2 : c = '\\'
      · subst h2
        rw [if_pos rfl]
        show (parseStringBody (escapeStr s ++ '"' :: rest)).map
          (fun p => ('\\' :: p.1, p.2)) = _
        rw [ih]
        rfl
      · rw [if_neg h2]
        by_cases h3 : c = '\n'
        · subst h3
          rw [if_pos rfl]
          show (parseStringBody (escapeStr s ++ '"' :: rest)).map
            (fun p => ('\n' :: p.1, p.2)) = _
          rw [ih]
          rfl
        · rw [if_neg h3]
          by_cases h4 : c = '\t'
          · subst h4
            rw [if_pos rfl]
            show (parseStringBody (escapeStr s ++ '"' :: rest)).map
              (fun p => ('\t' :: p.1, p.2)) = _
            rw [ih]
            rfl
          · rw [if_neg h4]
            by_cases h5 : c = '\r'
            · subst h5
              rw [if_pos rfl]
              show (parseStringBody (escapeStr s ++ '"' :: rest)).map
                (fun p => ('\r' :: p.1, p.2)) = _
              rw [ih]
              rfl
            · rw [if_neg h5]
              show parseStringBody (c :: (escapeStr s ++ '"' :: rest)) = _
              rw [parseStringBody_cons, if_neg h1, if_neg h2, ih]
              rfl

/-! ## Lemmas: renderer shapes -/

theorem renderVal_null (lvl : Nat) :
    renderVal .null lvl = 'n' :: 'u' :: 'l' :: 'l' :: [] := by
  rw [renderVal, litNull]

theorem renderVal_true (lvl : Nat) :
    renderVal (.bool true) lvl = 't' :: 'r' :: 'u' :: 'e' :: [] := by
  rw [renderVal, litTrue]

theorem renderVal_false (lvl : Nat) :
    renderVal (.bool false) lvl = 'f' :: 'a' :: 'l' :: 's' :: 'e' :: [] := by
  rw [renderVal, litFalse]

theorem renderVal_num (n : Int) (lvl : Nat) :
    renderVal (.num n) lvl = renderInt n := by rw [renderVal]

theorem renderVal_str (s : Str) (lvl : Nat) :
    renderVal (.str s) lvl = '"' :: (escapeStr s ++ ['"']) := by rw [renderVal]

theorem renderVal_arr_nil (lvl : Nat) :
    renderVal (.arr .nil) lvl = '[' :: ']' :: [] := by rw [renderVal]

theorem renderVal_arr_cons (h : JVal) (t : JArr) (lvl : Nat) :
    renderVal (.arr (.cons h t)) lvl =
      '[' :: '\n' :: (renderArrItems (.cons h t) (lvl + 1) ++
        '\n' :: (indentChars lvl ++ [']'])) := by rw [renderVal]

theorem renderVal_obj_nil (lvl : Nat) :
    renderVal (.obj .nil) lvl = '{' :: '}' :: [] := by rw [renderVal]

theorem renderVal_obj_cons (k : Str) (v : JVal) (t : JObj) (lvl : Nat) :
    renderVal (.obj (.cons k v t)) lvl =
      '{' :: '\n' :: (renderObjItems (.cons k v t) (lvl + 1) ++
        '\n' :: (indentChars lvl ++ ['}'])) := by rw [renderVal]

theorem renderArrItems_single (h : JVal) (lvl : Nat) :
    renderArrItems (.cons h .nil) lvl = indentChars lvl ++ renderVal h lvl := by
  rw [renderArrItems]

theorem renderArrItems_cons2 (h h2 : JVal) (t : JArr) (lvl : Nat) :
    renderArrItems (.cons h (.cons h2 t)) lvl =
      indentChars lvl ++ (renderVal h lvl ++
        ',' :: '\n' :: renderArrItems (.cons h2 t) lvl) := by
  rw [renderArrItems]

theorem renderObjItems_single (k : Str) (v : JVal) (lvl : Nat) :
    renderObjItems (.cons k v .nil) lvl =
      indentChars lvl ++ ('"' :: (escapeStr k ++ '"' :: ':' :: ' ' :: renderVal v lvl)) := by
  rw [renderObjItems]

theorem renderObjItems_cons2 (k : Str) (v : JVal) (k2 : Str) (v2 : JVal) (t : JObj)
    (lvl : Nat) :
    renderObjItems (.cons k v (.cons k2 v2 t)) lvl =
      indentChars lvl ++ ('"' :: (escapeStr k ++ '"' :: ':' :: ' ' ::
        (renderVal v lvl ++ ',' :: '\n' :: renderObjItems (.cons k2 v2 t) lvl))) := by
  rw [renderObjItems]

theorem renderInt_head (n : Int) :
    ∃ c t, renderInt n = c :: t ∧ (c = '-' ∨ isDigit10 c = true) := by
  rw [renderInt]
  by_cases hneg : n < 0
  · rw [if_pos hneg]
    exact ⟨'-', renderNat n.natAbs, rfl, Or.inl rfl⟩
  · rw [if_neg hneg]
    obtain ⟨c, t, hct, hd⟩ := renderNat_head n.natAbs
    exact ⟨c, t, hct, Or.inr hd⟩

theorem renderInt_head_ne {c : Char} (hcd : c = '-' ∨ isDigit10 c = true) (x : Char)
    (hx1 : ¬ ('-' = x)) (hx2 : isDigit10 x = false) : ¬ c = x := by
  rcases hcd with rfl | hd
  · exact hx1
  · exact digit_ne_c hd hx2

theorem renderVal_head (v : JVal) (lvl : Nat) :
    ∃ c t, renderVal v lvl = c :: t ∧ isWs c = false ∧ ¬ c = ']' ∧ ¬ c = '}' := by
  cases v with
  | null =>
    exact ⟨'n', _, renderVal_null lvl, by decide, by decide, by decide⟩
  | bool b =>
    cases b with
    | false => exact ⟨'f', _, renderVal_false lvl, by decide, by decide, by decide⟩
    | true => exact ⟨'t', _, renderVal_true lvl, by decide, by decide, by decide⟩
  | num n =>
    obtain ⟨c, t, hct, hcd⟩ := renderInt_head n
    refine ⟨c, t, ?_, ?_, ?_, ?_⟩
    · rw [renderVal_num, hct]
    · rcases hcd with rfl | hd
      · decide
      · exact digit_not_ws hd
    · exact renderInt_head_ne hcd ']' (by decide) (by decide)
    · exact renderInt_head_ne hcd '}' (by decide) (by decide)
  | str s =>
    exact ⟨'"', _, renderVal_str s lvl, by decide, by decide, by decide⟩
  | arr a =>
    cases a with
    | nil => exact ⟨'[', _, renderVal_arr_nil lvl, by decide, by decide, by decide⟩
    | cons h t =>
      exact ⟨'[', _, renderVal_arr_cons h t lvl, by decide, by decide, by decide⟩
  | obj o =>
    cases o with
    | nil => exact ⟨'{', _, renderVal_obj_nil lvl, by decide, by decide, by decide⟩
    | cons k v t =>
      exact ⟨'{', _, renderVal_obj_cons k v t lvl, by decide, by decide, by decide⟩

theorem noDigitHead_cons {c : Char} {s : Str} (h : isDigit10 c = false) :
    noDigitHead (c :: s) := h

theorem wsOnly_newline : wsOnly ['\n'] := wsOnly_cons (by decide) wsOnly_nil

theorem skipWs_ws {c : Char} (h : isWs c = true) (s : Str) :
    skipWs (c :: s) = skipWs s := by
  simp [skipWs, h]

theorem skipWs_renderArrItems (h : JVal) (t : JArr) (lvl : Nat) (L : Str) :
    ∃ c0 t0, skipWs (renderArrItems (.cons h t) lvl ++ L) = c0 :: t0 ∧
      isWs c0 = false ∧ ¬ c0 = ']' ∧ ¬ c0 = '}' := by
  obtain ⟨c0, t0, hct, hws0, hne1, hne2⟩ := renderVal_head h lvl
  cases t with
  | nil =>
    rw [renderArrItems_single, hct]
    simp only [List.append_assoc, List.cons_append]
    rw [skipWs_to (wsOnly_indentChars lvl) hws0]
    exact ⟨c0, _, rfl, hws0, hne1, hne2⟩
  | cons h2 t2 =>
    rw [renderArrItems_cons2, hct]
    simp only [List.append_assoc, List.cons_append]
    rw [skipWs_to (wsOnly_indentChars lvl) hws0]
    exact ⟨c0, _, rfl, hws0, hne1, hne2⟩

theorem skipWs_renderObjItems_head (k : Str) (v : JVal) (t : JObj) (lvl : Nat) (L : Str) :
    ∃ t0, skipWs (renderObjItems (.cons k v t) lvl ++ L) = '"' :: t0 := by
  cases t with
  | nil =>
    rw [renderObjItems_single]
    simp only [List.append_assoc, List.cons_append]
    rw [skipWs_to (wsOnly_indentChars lvl) (by decide)]
    exact ⟨_, rfl⟩
  | cons k2 v2 t2 =>
    rw [renderObjItems_cons2]
    simp only [List.append_assoc, List.cons_append]
    rw [skipWs_to (wsOnly_indentChars lvl) (by decide)]
    exact ⟨_, rfl⟩

theorem needVal_pos (v : JVal) : 1 ≤ needVal v := by
  cases v <;> simp [needVal]

theorem needArr_cons_pos (h : JVal) (t : JArr) : 1 ≤ needArr (.cons h t) := by
  rw [needArr]
  omega

theorem needObj_cons_pos (k : Str) (v : JVal) (t : JObj) :
    1 ≤ needObj (.cons k v t) := by
  rw [needObj]
  omega

theorem needArr_cons_le {h : JVal} {t : JArr} {f : Nat}
    (hf : needArr (.cons h t) ≤ f + 1) : needVal h ≤ f ∧ needArr t ≤ f := by
  rw [needArr] at hf
  have h1 := Nat.le_max_left (needVal h) (needArr t)
  have h2 := Nat.le_max_right (needVal h) (needArr t)
  omega

theorem needObj_cons_le {k : Str} {v : JVal} {t : JObj} {f : Nat}
    (hf : needObj (.cons k v t) ≤ f + 1) : needVal v ≤ f ∧ needObj t ≤ f := by
  rw [needObj] at hf
  have h1 := Nat.le_max_left (needVal v) (needObj t)
  have h2 := Nat.le_max_right (needVal v) (needObj t)
  omega

theorem needVal_arr_le {a : JArr} {f : Nat}
    (hf : needVal (.arr a) ≤ f + 1) : needArr a ≤ f := by
  rw [needVal] at hf
  omega

theorem needVal_obj_le {o : JObj} {f : Nat}
    (hf : needVal (.obj o) ≤ f + 1) : needObj o ≤ f := by
  rw [needVal] at hf
  omega

theorem parseValAt_to_parseNum {c : Char} (f : Nat) (rest : Str)
    (h1 : ¬ c = '{') (h2 : ¬ c = '[') (h3 : ¬ c = '"') (h4 : ¬ c = 't')
    (h5 : ¬ c = 'f') (h6 : ¬ c = 'n') :
    parseValAt f (c :: rest) = (parseNum (c :: rest)).map (fun p => (.num p.1, p.2)) := by
  rw [parseValAt]
  rw [if_neg h1, if_neg h2, if_neg h3, if_neg h4, if_neg h5, if_neg h6]

/-! ## The codec round-trip -/

mutual
theorem rtV (v : JVal) (fuel lvl : Nat) (ws rest : Str) (hws : wsOnly ws)
    (hnd : noDigitHead rest) (hfuel : needVal v ≤ fuel) :
    parseVal fuel (ws ++ (renderVal v lvl ++ rest)) = some (v, rest) := by
  obtain ⟨f, rfl⟩ : ∃ f, fuel = f + 1 :=
    ⟨fuel - 1, by have := needVal_pos v; omega⟩
  rw [parseVal]
  cases v with
  | null =>
    rw [renderVal_null]
    simp only [List.cons_append]
    rw [skipWs_to hws (by decide), parseValAt]
    simp [expectLit]
  | bool b =>
    cases b with
    | true =>
      rw [renderVal_true]
      simp only [List.cons_append]
      rw [skipWs_to hws (by decide), parseValAt]
      simp [expectLit]
    | false =>
      rw [renderVal_false]
      simp only [List.cons_append]
      rw [skipWs_to hws (by decide), parseValAt]
      simp [expectLit]
  | num n =>
    rw [renderVal_num]
    obtain ⟨c, t, hct, hcd⟩ := renderInt_head n
    have hnws : isWs c = false := by
      rcases hcd with rfl | hd
      · decide
      · exact digit_not_ws hd
    have hpn := parseNum_renderInt n hnd
    rw [hct] at hpn ⊢
    simp only [List.cons_append] at hpn ⊢
    rw [skipWs_to hws hnws]
    rw [parseValAt_to_parseNum f _
      (renderInt_head_ne hcd '{' (by decide) (by decide))
      (renderInt_head_ne hcd '[' (by decide) (by decide))
      (renderInt_head_ne hcd '"' (by decide) (by decide))
      (renderInt_head_ne hcd 't' (by decide) (by decide))
      (renderInt_head_ne hcd 'f' (by decide) (by decide))
      (renderInt_head_ne hcd 'n' (by decide) (by decide))]
    rw [hpn]
    rfl
  | str s =>
    rw [renderVal_str]
    simp only [List.cons_append]
    rw [skipWs_to hws (by decide), parseValAt]
    have hps : parseStringBody (escapeStr s ++ '"' :: rest) = some (s, rest) :=
      parseStringBody_escape s rest
    simp [hps]
  | arr a =>
    cases a with
    | nil =>
      rw [renderVal_arr_nil]
      simp only [List.cons_append]
      rw [skipWs_to hws (by decide), parseValAt]
      have hsw : skipWs (']' :: rest) = ']' :: rest := skipWs_not_ws (by decide) rest
      simp [hsw, expectLit]
    | cons h t =>
      rw [renderVal_arr_cons]
      simp only [List.cons_append, List.append_assoc, List.nil_append]
      rw [skipWs_to hws (by decide), parseValAt]
      have hfa : needArr (.cons h t) ≤ f := needVal_arr_le hfuel
      obtain ⟨c0, t0, hsk, hws0, hne1, _⟩ :=
        skipWs_renderArrItems h t (lvl + 1) ('\n' :: (indentChars lvl ++ (']' :: rest)))
      have hskip2 : skipWs ('\n' :: (renderArrItems (.cons h t) (lvl + 1) ++
          '\n' :: (indentChars lvl ++ (']' :: rest)))) = c0 :: t0 := by
        rw [skipWs_ws (by decide)]
        exact hsk
      have hexp : expectLit [']'] (skipWs ('\n' :: (renderArrItems (.cons h t) (lvl + 1) ++
          '\n' :: (indentChars lvl ++ (']' :: rest))))) = none := by
        rw [hskip2]
        exact expectLit_single_ne hne1 _
      have hitems := rtA h t f (lvl + 1) lvl ['\n'] rest wsOnly_newline hfa
      simp only [List.cons_append, List.nil_append] at hitems
      simp [hexp, hitems]
  | obj o =>
    cases o with
    | nil =>
      rw [renderVal_obj_nil]
      simp only [List.cons_append]
      rw [skipWs_to hws (by decide), parseValAt]
      have hsw : skipWs ('}' :: rest) = '}' :: rest := skipWs_not_ws (by decide) rest
      simp [hsw, expectLit]
    | cons k v t =>
      rw [renderVal_obj_cons]
      simp only [List.cons_append, List.append_assoc, List.nil_append]
      rw [skipWs_to hws (by decide), parseValAt]
      have hfo : needObj (.cons k v t) ≤ f := needVal_obj_le hfuel
      obtain ⟨t0, hsk⟩ :=
        skipWs_renderObjItems_head k v t (lvl + 1) ('\n' :: (indentChars lvl ++ ('}' :: rest)))
      have hskip2 : skipWs ('\n' :: (renderObjItems (.cons k v t) (lvl + 1) ++
          '\n' :: (indentChars lvl ++ ('}' :: rest)))) = '"' :: t0 := by
        rw [skipWs_ws (by decide)]
        exact hsk
      have hexp : expectLit ['}'] (skipWs ('\n' :: (renderObjItems (.cons k v t) (lvl + 1) ++
          '\n' :: (indentChars lvl ++ ('}' :: rest))))) = none := by
        rw [hskip2]
        exact expectLit_single_ne (by decide) _
      have hitems := rtO k v t f (lvl + 1) lvl ['\n'] rest wsOnly_newline hfo
      simp only [List.cons_append, List.nil_append] at hitems
      simp [hexp, hitems]
termination_by (sizeOf v, 0)

theorem rtA (h : JVal) (t : JArr) (fuel lvl lvl2 : Nat) (ws rest : Str)
    (hws : wsOnly ws) (hfuel : needArr (.cons h t) ≤ fuel) :
    parseArrItems fuel (ws ++ (renderArrItems (.cons h t) lvl ++
      '\n' :: (indentChars lvl2 ++ (']' :: rest)))) = some (.cons h t, rest) := by
  obtain ⟨f, rfl⟩ : ∃ f, fuel = f + 1 :=
    ⟨fuel - 1, by have := needArr_cons_pos h t; omega⟩
  have hfv : needVal h ≤ f := (needArr_cons_le hfuel).1
  rw [parseArrItems]
  cases t with
  | nil =>
    rw [renderArrItems_single]
    have hv := rtV h f lvl (ws ++ indentChars lvl)
      ('\n' :: (indentChars lvl2 ++ (']' :: rest)))
      (wsOnly_append hws (wsOnly_indentChars lvl)) (noDigitHead_cons (by decide)) hfv
    simp only [List.append_assoc, List.cons_append] at hv ⊢
    rw [hv]
    have hsw : skipWs ('\n' :: (indentChars lvl2 ++ (']' :: rest))) = ']' :: rest := by
      rw [skipWs_ws (by decide)]
      exact skipWs_to (wsOnly_indentChars lvl2) (by decide) rest
    simp [hsw]
  | cons h2 t2 =>
    rw [renderArrItems_cons2]
    have hft : needArr (.cons h2 t2) ≤ f := (needArr_cons_le hfuel).2
    have hv := rtV h f lvl (ws ++ indentChars lvl)
      (',' :: '\n' :: (renderArrItems (.cons h2 t2) lvl ++
        '\n' :: (indentChars lvl2 ++ (']' :: rest))))
      (wsOnly_append hws (wsOnly_indentChars lvl)) (noDigitHead_cons (by decide)) hfv
    simp only [List.append_assoc, List.cons_append] at hv ⊢
    rw [hv]
    have hsw : skipWs (',' :: '\n' :: (renderArrItems (.cons h2 t2) lvl ++
        '\n' :: (indentChars lvl2 ++ (']' :: rest)))) = ',' :: '\n' ::
          (renderArrItems (.cons h2 t2) lvl ++
            '\n' :: (indentChars lvl2 ++ (']' :: rest))) :=
      skipWs_not_ws (by decide) _
    have hrec := rtA h2 t2 f lvl lvl2 ['\n'] rest wsOnly_newline hft
    simp only [List.cons_append, List.nil_append] at hrec
    simp [hsw, hrec]
termination_by (sizeOf h + sizeOf t, 1)

theorem rtO (k : Str) (v : JVal) (t : JObj) (fuel lvl lvl2 : Nat) (ws rest : Str)
    (hws : wsOnly ws) (hfuel : needObj (.cons k v t) ≤ fuel) :
    parseObjItems fuel (ws ++ (renderObjItems (.cons k v t) lvl ++
      '\n' :: (indentChars lvl2 ++ ('}' :: rest)))) = some (.cons k v t, rest) := by
  obtain ⟨f, rfl⟩ : ∃ f, fuel = f + 1 :=
    ⟨fuel - 1, by have := needObj_cons_pos k v t; omega⟩
  have hfv : needVal v ≤ f := (needObj_cons_le hfuel).1
  rw [parseObjItems]
  cases t with
  | nil =>
    rw [renderObjItems_single]
    simp only [List.append_assoc, List.cons_append]
    have hsw : skipWs (ws ++ (indentChars lvl ++ ('"' :: (escapeStr k ++
        '"' :: ':' :: ' ' :: (renderVal v lvl ++
          '\n' :: (indentChars lvl2 ++ ('}' :: rest))))))) =
        '"' :: (escapeStr k ++ '"' :: ':' :: ' ' :: (renderVal v lvl ++
          '\n' :: (indentChars lvl2 ++ ('}' :: rest)))) := by
      rw [skipWs_ws_append hws]
      exact skipWs_to (wsOnly_indentChars lvl) (by decide) _
    have hkey := parseStringBody_escape k
      (':' :: ' ' :: (renderVal v lvl ++ '\n' :: (indentChars lvl2 ++ ('}' :: rest))))
    have hv := rtV v f lvl [' ']
      ('\n' :: (indentChars lvl2 ++ ('}' :: rest)))
      (wsOnly_cons (by decide) wsOnly_nil) (noDigitHead_cons (by decide)) hfv
    simp only [List.cons_append, List.nil_append] at hv
    have hsw2 : skipWs ('\n' :: (indentChars lvl2 ++ ('}' :: rest))) = '}' :: rest := by
      rw [skipWs_ws (by decide)]
      exact skipWs_to (wsOnly_indentChars lvl2) (by decide) rest
    have hswc : skipWs (':' :: ' ' :: (renderVal v lvl ++
        '\n' :: (indentChars lvl2 ++ ('}' :: rest)))) =
        ':' :: ' ' :: (renderVal v lvl ++
          '\n' :: (indentChars lvl2 ++ ('}' :: rest))) :=
      skipWs_not_ws (by decide) _
    simp [hsw, hkey, hswc, hv, hsw2]
  | cons k2 v2 t2 =>
    rw [renderObjItems_cons2]
    simp only [List.append_assoc, List.cons_append]
    have hft : needObj (.cons k2 v2 t2) ≤ f := (needObj_cons_le hfuel).2
    have hsw : skipWs (ws ++ (indentChars lvl ++ ('"' :: (escapeStr k ++
        '"' :: ':' :: ' ' :: (renderVal v lvl ++ ',' :: '\n' ::
          (renderObjItems (.cons k2 v2 t2) lvl ++
            '\n' :: (indentChars lvl2 ++ ('}' :: rest)))))))) =
        '"' :: (escapeStr k ++ '"' :: ':' :: ' ' :: (renderVal v lvl ++ ',' :: '\n' ::
          (renderObjItems (.cons k2 v2 t2) lvl ++
            '\n' :: (indentChars lvl2 ++ ('}' :: rest))))) := by
      rw [skipWs_ws_append hws]
      exact skipWs_to (wsOnly_indentChars lvl) (by decide) _
    have hkey := parseStringBody_escape k
      (':' :: ' ' :: (renderVal v lvl ++ ',' :: '\n' ::
        (renderObjItems (.cons k2 v2 t2) lvl ++
          '\n' :: (indentChars lvl2 ++ ('}' :: rest)))))
    have hv := rtV v f lvl [' ']
      (',' :: '\n' :: (renderObjItems (.cons k2 v2 t2) lvl ++
        '\n' :: (indentChars lvl2 ++ ('}' :: rest))))
      (wsOnly_cons (by decide) wsOnly_nil) (noDigitHead_cons (by decide)) hfv
    simp only [List.cons_append, List.nil_append] at hv
    have hswc : skipWs (':' :: ' ' :: (renderVal v lvl ++ ',' :: '\n' ::
        (renderObjItems (.cons k2 v2 t2) lvl ++
          '\n' :: (indentChars lvl2 ++ ('}' :: rest))))) =
        ':' :: ' ' :: (renderVal v lvl ++ ',' :: '\n' ::
          (renderObjItems (.cons k2 v2 t2) lvl ++
            '\n' :: (indentChars lvl2 ++ ('}' :: rest)))) :=
      skipWs_not_ws (by decide) _
    have hswm : skipWs (',' :: '\n' :: (renderObjItems (.cons k2 v2 t2) lvl ++
        '\n' :: (indentChars lvl2 ++ ('}' :: rest)))) =
        ',' :: '\n' :: (renderObjItems (.cons k2 v2 t2) lvl ++
          '\n' :: (indentChars lvl2 ++ ('}' :: rest))) :=
      skipWs_not_ws (by decide) _
    have hrec := rtO k2 v2 t2 f lvl lvl2 ['\n'] rest wsOnly_newline hft
    simp only [List.cons_append, List.nil_append] at hrec
    simp [hsw, hkey, hswc, hv, hswm, hrec]
termination_by (sizeOf v + sizeOf t, 1)
end

theorem renderVal_len_pos (v : JVal) (lvl : Nat) : 1 ≤ (renderVal v lvl).length := by
  obtain ⟨c, t, hct, _⟩ := renderVal_head v lvl
  simp [hct]

mutual
theorem lenV (v : JVal) (lvl : Nat) : needVal v ≤ (renderVal v lvl).length := by
  cases v with
  | null => simp [renderVal_null, needVal]
  | bool b => cases b <;> simp [renderVal_true, renderVal_false, needVal]
  | num n =>
    rw [renderVal_num]
    obtain ⟨c, t, hct, _⟩ := renderInt_head n
    rw [hct]
    simp [needVal]
  | str s =>
    rw [renderVal_str]
    simp [needVal]
  | arr a =>
    cases a with
    | nil => simp [renderVal_arr_nil, needVal, needArr]
    | cons h t =>
      rw [renderVal_arr_cons, needVal]
      have hA := lenA h t (lvl + 1)
      simp only [List.length_cons, List.length_append]
      omega
  | obj o =>
    cases o with
    | nil => simp [renderVal_obj_nil, needVal, needObj]
    | cons k v t =>
      rw [renderVal_obj_cons, needVal]
      have hO := lenO k v t (lvl + 1)
      simp only [List.length_cons, List.length_append]
      omega
termination_by (sizeOf v, 0)

theorem lenA (h : JVal) (t : JArr) (lvl : Nat) :
    needArr (.cons h t) ≤ (renderArrItems (.cons h t) lvl).length + 1 := by
  cases t with
  | nil =>
    rw [needArr, renderArrItems_single]
    have h1 := lenV h lvl
    have h2 : needArr JArr.nil = 1 := by rw [needArr]
    have h3 := renderVal_len_pos h lvl
    rw [h2]
    simp only [List.length_append]
    have hmax : max (needVal h) 1 ≤ (renderVal h lvl).length :=
      Nat.max_le.mpr ⟨h1, h3⟩
    omega
  | cons h2 t2 =>
    rw [needArr, renderArrItems_cons2]
    have h1 := lenV h lvl
    have h3 := renderVal_len_pos h lvl
    have hA := lenA h2 t2 lvl
    simp only [List.length_append, List.length_cons]
    have hmax : max (needVal h) (needArr (JArr.cons h2 t2)) ≤
        (renderVal h lvl).length + (renderArrItems (JArr.cons h2 t2) lvl).length + 1 := by
      apply Nat.max_le.mpr
      constructor <;> omega
    omega
termination_by (sizeOf h + sizeOf t, 1)

theorem lenO (k : Str) (v : JVal) (t : JObj) (lvl : Nat) :
    needObj (.cons k v t) ≤ (renderObjItems (.cons k v t) lvl).length + 1 := by
  cases t with
  | nil =>
    rw [needObj, renderObjItems_single]
    have h1 := lenV v lvl
    have h2 : needObj JObj.nil = 1 := by rw [needObj]
    have h3 := renderVal_len_pos v lvl
    rw [h2]
    simp only [List.length_append, List.length_cons]
    have hmax : max (needVal v) 1 ≤ (renderVal v lvl).length :=
      Nat.max_le.mpr ⟨h1, h3⟩
    omega
  | cons k2 v2 t2 =>
    rw [needObj, renderObjItems_cons2]
    have h1 := lenV v lvl
    have h3 := renderVal_len_pos v lvl
    have hO := lenO k2 v2 t2 lvl
    simp only [List.length_append, List.length_cons]
    have hmax : max (needVal v) (needObj (JObj.cons k2 v2 t2)) ≤
        (renderVal v lvl).length + (renderObjItems (JObj.cons k2 v2 t2) lvl).length + 1 := by
      apply Nat.max_le.mpr
      constructor <;> omega
    omega
termination_by (sizeOf v + sizeOf t, 1)
end

/-- The codec round-trip: the modelled `json.Unmarshal` inverts the modelled
`json.MarshalIndent` on every document. -/
theorem unmarshal_marshalIndent (v : JVal) : unmarshal (marshalIndent v) = some v := by
  rw [unmarshal]
  have hb : needVal v ≤ (marshalIndent v).length + 1 := by
    rw [marshalIndent]
    have := lenV v 0
    omega
  have h := rtV v ((marshalIndent v).length + 1) 0 [] [] wsOnly_nil trivial hb
  simp only [List.nil_append, List.append_nil] at h
  rw [marshalIndent]
  rw [marshalIndent] at h
  rw [h]
  rfl

/-! ## Lemmas: registries, scanning, keys, the receive loop -/

theorem lookupAssoc_mapWrite {α : Type} (l : List (Str × α)) (k : Str) (v : α) :
    lookupAssoc (mapWrite l k v) k = some v := by
  induction l with
  | nil => simp [mapWrite, lookupAssoc]
  | cons e rest ih =>
    obtain ⟨k0, v0⟩ := e
    by_cases h : k0 = k
    · subst h
      simp [mapWrite, lookupAssoc]
    · simp [mapWrite, lookupAssoc, h, ih]

theorem lookupAssoc_eq_none {α : Type} {l : List (Str × α)} {k : Str}
    (h : ∀ kv ∈ l, kv.1 ≠ k) : lookupAssoc l k = none := by
  induction l with
  | nil => rfl
  | cons e rest ih =>
    have he : e.1 ≠ k := h e (List.mem_cons_self e rest)
    obtain ⟨k0, v0⟩ := e
    simp only [lookupAssoc, if_neg he]
    exact ih (fun kv hkv => h kv (List.mem_cons_of_mem _ hkv))

theorem lookupAssoc_of_mem_nodup {α : Type} {l : List (Str × α)}
    (hnd : (l.map Prod.fst).Nodup) {k : Str} {v : α} (hmem : (k, v) ∈ l) :
    lookupAssoc l k = some v := by
  induction l with
  | nil => cases hmem
  | cons e rest ih =>
    simp only [List.map_cons, List.nodup_cons] at hnd
    rcases List.mem_cons.1 hmem with heq | hmem2
    · rw [← heq]
      simp [lookupAssoc]
    · obtain ⟨k0, v0⟩ := e
      have hk0 : k0 ≠ k := by
        intro heq2
        subst heq2
        exact hnd.1 (List.mem_map.2 ⟨(k0, v), hmem2, rfl⟩)
      simp only [lookupAssoc, if_neg hk0]
      exact ih hnd.2 hmem2

theorem scanRoutes_eq_none {l : List (Str × RouteConfig)} {m pa : Str} :
    scanRoutes l m pa = none ↔ ∀ e ∈ l, ¬ entryMatches m pa e := by
  induction l with
  | nil =>
    constructor
    · intro _ e he
      cases he
    · intro _
      rfl
  | cons e rest ih =>
    by_cases h : entryMatches m pa e
    · rw [scanRoutes, if_pos h]
      constructor
      · intro hc
        cases hc
      · intro hall
        exact absurd h (hall e (List.mem_cons_self e rest))
    · rw [scanRoutes, if_neg h]
      constructor
      · intro hnone e2 he2
        rcases List.mem_cons.1 he2 with rfl | h2
        · exact h
        · exact ih.1 hnone e2 h2
      · intro hall
        exact ih.2 (fun e2 h2 => hall e2 (List.mem_cons_of_mem e h2))

theorem scanRoutes_some_matches {l : List (Str × RouteConfig)} {m pa : Str}
    {cfg : RouteConfig} (h : scanRoutes l m pa = some cfg) :
    (cfg.Method = ['*'] ∨ cfg.Method = m) ∧ matchPath cfg.Path pa = true := by
  induction l with
  | nil => cases h
  | cons e rest ih =>
    by_cases hm : entryMatches m pa e
    · rw [scanRoutes, if_pos hm] at h
      obtain rfl : e.2 = cfg := Option.some.inj h
      exact hm
    · rw [scanRoutes, if_neg hm] at h
      exact ih h

theorem scanRoutes_some_mem {l : List (Str × RouteConfig)} {m pa : Str}
    {cfg : RouteConfig} (h : scanRoutes l m pa = some cfg) :
    ∃ k, (k, cfg) ∈ l ∧ entryMatches m pa (k, cfg) := by
  induction l with
  | nil => cases h
  | cons e rest ih =>
    by_cases hm : entryMatches m pa e
    · rw [scanRoutes, if_pos hm] at h
      obtain rfl : e.2 = cfg := Option.some.inj h
      exact ⟨e.1, List.mem_cons_self e rest, hm⟩
    · rw [scanRoutes, if_neg hm] at h
      obtain ⟨k, hmem, hma⟩ := ih h
      exact ⟨k, List.mem_cons_of_mem e hmem, hma⟩

theorem scanRoutes_some_of_mem {l : List (Str × RouteConfig)} {m pa : Str}
    (hu : ∀ e1 ∈ l, ∀ e2 ∈ l, entryMatches m pa e1 → entryMatches m pa e2 → e1 = e2)
    {k : Str} {cfg : RouteConfig} (hmem : (k, cfg) ∈ l)
    (hma : entryMatches m pa (k, cfg)) : scanRoutes l m pa = some cfg := by
  induction l with
  | nil => cases hmem
  | cons e rest ih =>
    by_cases hm : entryMatches m pa e
    · rw [scanRoutes, if_pos hm]
      have he : e = (k, cfg) :=
        hu e (List.mem_cons_self e rest) (k, cfg) hmem hm hma
      rw [he]
    · rw [scanRoutes, if_neg hm]
      have hne : (k, cfg) ≠ e := by
        intro heq
        rw [heq] at hma
        exact hm hma
      have hmem2 : (k, cfg) ∈ rest := by
        rcases List.mem_cons.1 hmem with heq | h2
        · exact absurd heq hne
        · exact h2
      exact ih
        (fun e1 h1 e2 h2 => hu e1 (List.mem_cons_of_mem e h1) e2 (List.mem_cons_of_mem e h2))
        hmem2

theorem splitKey_no_colon : ∀ {s : Str}, ':' ∉ s → splitKey s = (s, []) := by
  intro s
  induction s with
  | nil => intro _; rfl
  | cons c rest ih =>
    intro h
    have hc : ¬ c = ':' := fun heq => h (heq ▸ List.mem_cons_self c rest)
    have hrest : ':' ∉ rest := fun hm => h (List.mem_cons_of_mem c hm)
    rw [splitKey, if_neg hc, ih hrest]

theorem splitKey_append_colon : ∀ {a : Str} (b : Str), ':' ∉ a →
    splitKey (a ++ ':' :: b) = (a, b) := by
  intro a
  induction a with
  | nil =>
    intro b _
    show splitKey (':' :: b) = ([], b)
    rw [splitKey, if_pos rfl]
  | cons c rest ih =>
    intro b h
    have hc : ¬ c = ':' := fun heq => h (heq ▸ List.mem_cons_self c rest)
    have hrest : ':' ∉ rest := fun hm => h (List.mem_cons_of_mem c hm)
    show splitKey (c :: (rest ++ ':' :: b)) = (c :: rest, b)
    rw [splitKey, if_neg hc, ih b hrest]

theorem splitKey_colon_append : ∀ {s : Str} (t : Str), ':' ∈ s →
    (splitKey (s ++ t)).1 = (splitKey s).1 ∧ (splitKey s).1.length < s.length := by
  intro s
  induction s with
  | nil => intro t h; cases h
  | cons c rest ih =>
    intro t h
    by_cases hc : c = ':'
    · subst hc
      constructor
      · show (splitKey (':' :: (rest ++ t))).1 = (splitKey (':' :: rest)).1
        rw [splitKey, if_pos rfl, splitKey, if_pos rfl]
      · rw [splitKey, if_pos rfl]
        simp
    · have hrest : ':' ∈ rest := by
        rcases List.mem_cons.1 h with heq | h2
        · exact absurd heq.symm hc
        · exact h2
      obtain ⟨ih1, ih2⟩ := ih t hrest
      constructor
      · show (splitKey (c :: (rest ++ t))).1 = (splitKey (c :: rest)).1
        rw [splitKey, if_neg hc, splitKey, if_neg hc]
        simpa using ih1
      · rw [splitKey, if_neg hc]
        simpa using ih2

theorem runLoop_plugin_eq (p : Plugin) :
    ∀ (msgs : List PanelMessage) (fin : StreamEnd),
      (runLoop p msgs fin).2.2 = p := by
  intro msgs
  induction msgs with
  | nil => intro fin; cases fin <;> rfl
  | cons m rest ih =>
    intro fin
    rw [runLoop]
    cases hm : handleMessage p m with
    | exitProcess c => rfl
    | reply r => simp [ih fin]
    | silent => exact ih fin

theorem selectMixinHandler_first :
    ∀ (pre rest : List MixinRegistration) (m1 : MixinRegistration) (t : Str),
      m1.Target = t → (∀ x ∈ pre, x.Target ≠ t) →
      selectMixinHandler (pre ++ m1 :: rest) t = some m1.Handler := by
  intro pre
  induction pre with
  | nil =>
    intro rest m1 t h1 _
    show selectMixinHandler (m1 :: rest) t = some m1.Handler
    rw [selectMixinHandler, if_pos h1]
  | cons x xs ih =>
    intro rest m1 t h1 hpre
    have hx : ¬ x.Target = t := hpre x (List.mem_cons_self x xs)
    show selectMixinHandler (x :: (xs ++ m1 :: rest)) t = some m1.Handler
    rw [selectMixinHandler, if_neg hx]
    exact ih rest m1 t h1 (fun y hy => hpre y (List.mem_cons_of_mem x hy))

/-! ## Claim theorems -/

/-- C1: the claim says that when the connection transitions to Closed with
outbound pending calls still in the correlation table, every remaining
receptacle is fulfilled with a connection-closed failure. The code does no
such thing: the receive loop of `Start` never touches the `pending` table —
on EOF it returns `nil`, on a transport error it returns the error, and on
a Shutdown envelope it calls `os.Exit(0)` — so a pending receptacle is
still `waiting` when the loop is gone and its caller blocks forever. The
theorem states that the loop leaves the correlation table of any plugin
untouched, and evaluates the loop at a concrete plugin with one pending
call whose stream reaches EOF: the loop returns cleanly (`returned none`)
with the receptacle still unfulfilled. -/
theorem closed_connection_leaves_pending_unfulfilled :
    (∀ (p : Plugin) (msgs : List PanelMessage) (fin : StreamEnd),
      ((runLoop p msgs fin).2.2).pending = p.pending)
    ∧ runLoop pluginWithPending [] .eof = (.returned none, [], pluginWithPending)
    ∧ pluginWithPending.pending = [("corr-1".toList, .waiting)] := by
  refine ⟨?_, rfl, rfl⟩
  intro p msgs fin
  rw [runLoop_plugin_eq]

/-- C2 counterexample: the claim says the 404 body is exactly the bytes
`{"success":false,"error":"not found"}`. The code builds the body with
Go's `json.Marshal` on a `map[string]interface{}`, which emits map keys
in sorted order, so the actual bytes are
`{"error":"not found","success":false}` — same JSON object, different
byte sequence. Evaluated on the spec's own scenario (registry `POST
/items` + `GET /items/*`, request `DELETE /items`). -/
theorem not_found_body_key_order_cex :
    handleHTTP specRoutes deleteItemsReq =
      { RequestId := [],
        Payload := .httpResponse
          { Status := 404, Headers := [contentTypeJson],
            Body := "\x7b\"error\":\"not found\",\"success\":false\x7d".toList } }
    ∧ "\x7b\"error\":\"not found\",\"success\":false\x7d".toList ≠ claimedNotFoundBody := by
  constructor
  · rfl
  · decide

/-- C2 (amended): for every inbound HTTP request whose method and path
match no registered route, neither exactly nor via the wildcard scan, the
dispatcher returns a response with status 404 whose body is exactly the
bytes `{"error":"not found","success":false}` (Go's `json.Marshal` emits
the two map keys in sorted order). -/
theorem no_route_match_yields_404 :
    ∀ (routes : List (Str × RouteConfig)) (req : PbHTTPRequest),
      (∀ e ∈ routes, e.1 ≠ routeKey req.Method req.Path) →
      (∀ e ∈ routes, ¬ entryMatches req.Method req.Path e) →
      handleHTTP routes req =
        { RequestId := [],
          Payload := .httpResponse
            { Status := 404, Headers := [contentTypeJson],
              Body := "\x7b\"error\":\"not found\",\"success\":false\x7d".toList } } := by
  intro routes req hkey hmatch
  have hlook : lookupAssoc routes (routeKey req.Method req.Path) = none :=
    lookupAssoc_eq_none hkey
  have hscan : scanRoutes routes req.Method req.Path = none :=
    scanRoutes_eq_none.2 hmatch
  have hres : resolveRoute routes req.Method req.Path = none := by
    rw [resolveRoute, hlook, hscan]
  have hbody : jsonErrorBody ("not found".toList) =
      "\x7b\"error\":\"not found\",\"success\":false\x7d".toList := by decide
  rw [handleHTTP, hres]
  rw [errorResponse, hbody]

/-- Witness for C2's amended theorem at the spec scenario. -/
theorem no_route_match_yields_404_witness :
    handleHTTP specRoutes deleteItemsReq =
      { RequestId := [],
        Payload := .httpResponse
          { Status := 404, Headers := [contentTypeJson],
            Body := "\x7b\"error\":\"not found\",\"success\":false\x7d".toList } } :=
  no_route_match_yields_404 specRoutes deleteItemsReq (by decide) (by decide)

/-- C3: the claim says that any first reply other than a RegistrationAck,
or a transport error/EOF, makes `Start` report a fatal non-nil handshake
error without entering the receive loop. The code aborts before the loop
in all these cases, and a transport error or EOF (gRPC reports EOF as the
error `io.EOF`) is indeed returned non-nil — but for an unexpected payload
the code runs `return err` at a point where `err` is necessarily `nil`, so
`Start` returns a nil error and the failed handshake looks like a clean
exit. The theorem evaluates the handshake: an unexpected first payload
yields `preLoopReturn none` (abort with nil error), a failed receive
yields `preLoopReturn (some e)`. -/
theorem handshake_unexpected_reply_returns_nil_error :
    (∀ (p : Plugin) (rid : Str) (e : PbEvent) (msgs : List PanelMessage)
      (fin : StreamEnd),
      startAfterConnect p (.ok { RequestId := rid, Payload := .event e }) msgs fin =
        .preLoopReturn none)
    ∧ (∀ (p : Plugin) (e : Str) (msgs : List PanelMessage) (fin : StreamEnd),
      startAfterConnect p (.fail e) msgs fin = .preLoopReturn (some e))
    ∧ startAfterConnect pluginWithPending (.ok badFirstReply) [] .eof =
        .preLoopReturn none :=
  ⟨fun _ _ _ _ _ => rfl, fun _ _ _ _ => rfl, rfl⟩

/-- C4 counterexample: the claim says the wildcard scan runs in
registration order, so that with several matching wildcard routes the
selected one is uniquely determined for every run. The code ranges over
the Go `routes` map, whose iteration order is unspecified and varies
between runs: two permutations of the same registry (the same map
content) select different routes for `GET /items/42`. -/
theorem wildcard_scan_order_dependent_cex :
    List.Perm [entrySlashStar, entryStar] [entryStar, entrySlashStar]
    ∧ (resolveRoute [entrySlashStar, entryStar] "GET".toList "/items/42".toList).map
        RouteConfig.Path = some "/items/*".toList
    ∧ (resolveRoute [entryStar, entrySlashStar] "GET".toList "/items/42".toList).map
        RouteConfig.Path = some "/items*".toList
    ∧ resolveRoute [entrySlashStar, entryStar] "GET".toList "/items/42".toList ≠
        resolveRoute [entryStar, entrySlashStar] "GET".toList "/items/42".toList := by
  refine ⟨List.Perm.swap entryStar entrySlashStar [], rfl, rfl, ?_⟩
  intro hconteq
  have h2 := congrArg (Option.map RouteConfig.Path) hconteq
  have hL : (resolveRoute [entrySlashStar, entryStar] "GET".toList
      "/items/42".toList).map RouteConfig.Path = some "/items/*".toList := rfl
  have hR : (resolveRoute [entryStar, entrySlashStar] "GET".toList
      "/items/42".toList).map RouteConfig.Path = some "/items*".toList := rfl
  rw [hL, hR] at h2
  exact absurd h2 (by decide)

/-- C4 (amended): with no exact match, the scan selects the first route in
the run's map-iteration order whose method is `*` or equals the request
method and whose path pattern matches; any selected route satisfies that
condition, but which matching route is selected depends on the iteration
order, not on registration order — the selection is only guaranteed
identical across runs (permutations of the registry) when at most one
registered route matches the request. -/
theorem wildcard_scan_first_in_iteration_order :
    (∀ (routes : List (Str × RouteConfig)) (m pa : Str) (cfg : RouteConfig),
      scanRoutes routes m pa = some cfg →
        (cfg.Method = ['*'] ∨ cfg.Method = m) ∧ matchPath cfg.Path pa = true)
    ∧ (∀ (routes routes2 : List (Str × RouteConfig)) (m pa : Str),
      routes.Perm routes2 →
      (∀ e1 ∈ routes, ∀ e2 ∈ routes,
        entryMatches m pa e1 → entryMatches m pa e2 → e1 = e2) →
      scanRoutes routes m pa = scanRoutes routes2 m pa) := by
  constructor
  · intro routes m pa cfg h
    exact scanRoutes_some_matches h
  · intro routes routes2 m pa hperm hu
    cases hscan : scanRoutes routes m pa with
    | none =>
      symm
      rw [scanRoutes_eq_none]
      intro e he
      exact scanRoutes_eq_none.1 hscan e (hperm.mem_iff.2 he)
    | some cfg =>
      obtain ⟨k, hmem, hma⟩ := scanRoutes_some_mem hscan
      symm
      exact scanRoutes_some_of_mem
        (fun e1 h1 e2 h2 =>
          hu e1 (hperm.mem_iff.2 h1) e2 (hperm.mem_iff.2 h2))
        (hperm.mem_iff.1 hmem) hma

/-- Witness for C4's amended theorem: a single-entry registry, where the
scan result both matches and is stable under permutation. -/
theorem wildcard_scan_first_in_iteration_order_witness :
    ((cfgItemsSlashStar.Method = ['*'] ∨ cfgItemsSlashStar.Method = "GET".toList)
      ∧ matchPath cfgItemsSlashStar.Path "/items/42".toList = true)
    ∧ scanRoutes [entrySlashStar] "GET".toList "/items/42".toList =
        scanRoutes [entrySlashStar] "GET".toList "/items/42".toList :=
  ⟨wildcard_scan_first_in_iteration_order.1 [entrySlashStar] "GET".toList
      "/items/42".toList cfgItemsSlashStar rfl,
   wildcard_scan_first_in_iteration_order.2 [entrySlashStar] [entrySlashStar]
      "GET".toList "/items/42".toList (List.Perm.refl _)
      (by
        intro e1 h1 e2 h2 _ _
        rcases List.mem_cons.1 h1 with rfl | hc1
        · rcases List.mem_cons.1 h2 with rfl | hc2
          · rfl
          · cases hc2
        · cases hc1)⟩

/-- C5: for every registered route, an inbound call whose method and path
equal that route's method and path resolves to that route's config: the
exact composite-key lookup runs first and the wildcard scan is only
reached when it misses, so exact match takes priority over any wildcard
(the registry may contain arbitrary overlapping wildcard routes). -/
theorem exact_match_beats_wildcard :
    ∀ (routes : List (Str × RouteConfig)) (m pa : Str) (cfg : RouteConfig),
      (routes.map Prod.fst).Nodup →
      (routeKey m pa, cfg) ∈ routes →
      resolveRoute routes m pa = some cfg := by
  intro routes m pa cfg hnd hmem
  rw [resolveRoute, lookupAssoc_of_mem_nodup hnd hmem]

/-- Witness for C5: the exact route `GET /items/42` wins although the
overlapping wildcard `GET /items/*` is registered first and also matches. -/
theorem exact_match_beats_wildcard_witness :
    resolveRoute [entrySlashStar, entryItems42] "GET".toList "/items/42".toList =
      some cfgItems42 :=
  exact_match_beats_wildcard [entrySlashStar, entryItems42] "GET".toList
    "/items/42".toList cfgItems42 (by decide)
    (List.mem_cons_of_mem entrySlashStar (List.mem_cons_self entryItems42 []))

/-- C6: the route matcher characterisation. A pattern equal to the path
matches; a pattern ending in `*` matches exactly those paths that are at
least as long as the pattern's prefix before the `*` and start with that
prefix; any other pattern/path pair does not match. Concretely `/api/*`
matches `/api/`, `/api/x`, `/api/x/y` and does not match `/ap`. -/
theorem matchPath_characterization :
    (∀ path : Str, matchPath path path = true)
    ∧ (∀ pre path : Str, matchPath (pre ++ ['*']) path = true ↔
        (pre.length ≤ path.length ∧ path.take pre.length = pre))
    ∧ (∀ pattern path : Str, pattern ≠ path → pattern.getLast? ≠ some '*' →
        matchPath pattern path = false)
    ∧ matchPath "/api/*".toList "/api/".toList = true
    ∧ matchPath "/api/*".toList "/api/x".toList = true
    ∧ matchPath "/api/*".toList "/api/x/y".toList = true
    ∧ matchPath "/api/*".toList "/ap".toList = false := by
  refine ⟨?_, ?_, ?_, by decide, by decide, by decide, by decide⟩
  · intro path
    rw [matchPath, if_pos rfl]
  · intro pre path
    by_cases heq : pre ++ ['*'] = path
    · rw [matchPath, if_pos heq]
      subst heq
      constructor
      · intro _
        refine ⟨by simp, ?_⟩
        exact (List.take_left pre ['*']).symm ▸ rfl
      · intro _
        rfl
    · rw [matchPath, if_neg heq, if_pos (by rw [List.getLast?_concat])]
      rw [decide_eq_true_eq]
      have hlen : (pre ++ ['*']).length - 1 = pre.length := by simp
      rw [hlen]
      rw [List.take_left pre ['*']]
  · intro pattern path h1 h2
    rw [matchPath, if_neg h1, if_neg h2]

/-- Witness for C6's conditional parts at concrete patterns and paths. -/
theorem matchPath_characterization_witness :
    matchPath "/ap".toList "/api".toList = false
    ∧ matchPath "/api/*".toList "/api/zz".toList = true :=
  ⟨matchPath_characterization.2.2.1 "/ap".toList "/api".toList (by decide) (by decide),
   (matchPath_characterization.2.1 "/api/".toList "/api/zz".toList).mpr (by decide)⟩

/-- C7: when two or more mixin handlers are registered for the same target
(in any order and with any priorities), a mixin call to that target runs
only the first-registered handler: the response is built solely from the
first matching registration's handler, so the later registration (`m2`,
with arbitrary priority) is never invoked. -/
theorem first_registered_mixin_wins :
    ∀ (pre mid post : List MixinRegistration) (m1 m2 : MixinRegistration)
      (req : PbMixinRequest),
      m1.Target = req.Target → m2.Target = req.Target →
      (∀ x ∈ pre, x.Target ≠ req.Target) →
      handleMixin (pre ++ m1 :: (mid ++ m2 :: post)) req =
        mixinRespond m1.Handler req := by
  intro pre mid post m1 m2 req h1 _ hpre
  have hsel := selectMixinHandler_first pre (mid ++ m2 :: post) m1 req.Target h1 hpre
  rw [handleMixin, hsel]

/-- Witness for C7: two registrations for the same target with different
priorities; the call resolves to the first one's handler. -/
theorem first_registered_mixin_wins_witness :
    handleMixin [mixinRegOne, mixinRegTwo] mixinReqT =
      mixinRespond mixinHandlerOne mixinReqT :=
  first_registered_mixin_wins [] [] [] mixinRegOne mixinRegTwo mixinReqT rfl rfl
    (fun x hx => absurd hx (List.not_mem_nil x))

/-- C8: an inbound event whose type has no registered handler is answered
with an allow verdict and an empty message, and the dispatch leaves the
plugin state (registries and correlation table) unchanged. -/
theorem unhandled_event_allows :
    ∀ (p : Plugin) (ev : PbEvent) (rid : Str) (fin : StreamEnd),
      (∀ kv ∈ p.events, kv.1 ≠ ev.«Type») →
      handleMessage p { RequestId := rid, Payload := .event ev } =
        .reply { RequestId := rid, Payload := .eventResponse true [] }
      ∧ (runLoop p [{ RequestId := rid, Payload := .event ev }] fin).2.2 = p := by
  intro p ev rid fin hno
  have hlook : lookupAssoc p.events ev.«Type» = none := lookupAssoc_eq_none hno
  constructor
  · show HandleOutcome.reply
        { handleEvent p.events ev with RequestId := rid } = _
    rw [handleEvent, hlook]
  · exact runLoop_plugin_eq p _ fin

/-- Witness for C8: a plugin with a handler registered for a different
event type; an `unknown.event` call yields allow with empty message. -/
theorem unhandled_event_allows_witness :
    handleMessage pluginC8 { RequestId := "r7".toList, Payload := .event evUnknown } =
      .reply { RequestId := "r7".toList, Payload := .eventResponse true [] }
    ∧ (runLoop pluginC8
        [{ RequestId := "r7".toList, Payload := .event evUnknown }] .eof).2.2 =
      pluginC8 :=
  unhandled_event_allows pluginC8 evUnknown "r7".toList .eof (by decide)

/-- C9: saving a structured config document with `SaveConfig` and loading
it back with `LoadConfig` reproduces the document exactly, and loading
when no config file exists reports an error rather than silently yielding
a default. -/
theorem config_save_load_roundtrip :
    (∀ (fs : FS) (dataDir : Str) (v : JVal),
      LoadConfig (SaveConfig fs dataDir v) dataDir = .ok v)
    ∧ (∀ (fs : FS) (dataDir : Str),
      fsRead fs (configPath dataDir) = none →
        ∃ e, LoadConfig fs dataDir = .error e) := by
  constructor
  · intro fs dataDir v
    have hr : fsRead (SaveConfig fs dataDir v) (configPath dataDir) =
        some (marshalIndent v) := by
      rw [SaveConfig, fsRead, fsWrite]
      exact lookupAssoc_mapWrite fs (configPath dataDir) (marshalIndent v)
    rw [LoadConfig, hr]
    show (match unmarshal (marshalIndent v) with
      | none => Except.error GoFileError.jsonDecode
      | some v => Except.ok v) = Except.ok v
    rw [unmarshal_marshalIndent]
  · intro fs dataDir hnone
    refine ⟨.enoent, ?_⟩
    rw [LoadConfig, hnone]

/-- Witness for C9: a concrete document round-trips through an empty file
system, and loading from the empty file system errors. -/
theorem config_save_load_roundtrip_witness :
    LoadConfig (SaveConfig fsEmpty dataDirEx configDoc) dataDirEx = .ok configDoc
    ∧ ∃ e, LoadConfig fsEmpty dataDirEx = .error e :=
  ⟨config_save_load_roundtrip.1 fsEmpty dataDirEx configDoc,
   config_save_load_roundtrip.2 fsEmpty dataDirEx rfl⟩

/-- C10: `Schedule(id, cron, h)` stores the handler under the composite
key `id+":"+cron`; `splitKey` splits any key at its first colon and
returns `(key, "")` when no colon is present; schedule dispatch compares
the trigger id with the key part before the first colon, so an id without
a colon is triggered by exactly that id, while a registered id containing
a colon is never triggered by the full id — only by its prefix before its
first colon. -/
theorem schedule_key_and_dispatch :
    (∀ (sched : List (Str × ScheduleHandler)) (id cron : Str) (h : ScheduleHandler),
      lookupAssoc (scheduleRegister sched id cron h) (scheduleKey id cron) = some h)
    ∧ (∀ s : Str, ':' ∉ s → splitKey s = (s, []))
    ∧ (∀ a b : Str, ':' ∉ a → splitKey (a ++ ':' :: b) = (a, b))
    ∧ (∀ (id cron : Str) (h : ScheduleHandler), ':' ∉ id →
      findScheduled [(scheduleKey id cron, h)] id = some h)
    ∧ (∀ (id cron : Str) (h : ScheduleHandler), ':' ∈ id →
      findScheduled [(scheduleKey id cron, h)] id = none
      ∧ findScheduled [(scheduleKey id cron, h)] (splitKey id).1 = some h) := by
  refine ⟨?_, ?_, ?_, ?_, ?_⟩
  · intro sched id cron h
    rw [scheduleRegister]
    exact lookupAssoc_mapWrite sched (scheduleKey id cron) h
  · intro s hs
    exact splitKey_no_colon hs
  · intro a b ha
    exact splitKey_append_colon b ha
  · intro id cron h hid
    have hsplit : splitKey (scheduleKey id cron) = (id, cron) := by
      rw [scheduleKey]
      exact splitKey_append_colon cron hid
    rw [findScheduled, hsplit, if_pos rfl]
  · intro id cron h hid
    obtain ⟨h1, h2⟩ := splitKey_colon_append (':' :: cron) hid
    have hkey : (splitKey (scheduleKey id cron)).1 = (splitKey id).1 := by
      rw [scheduleKey]
      exact h1
    constructor
    · have hne : (splitKey (scheduleKey id cron)).1 ≠ id := by
        rw [hkey]
        intro heq
        rw [heq] at h2
        omega
      rw [findScheduled, if_neg hne]
      rfl
    · rw [findScheduled, hkey, if_pos rfl]

/-- Witness for C10 at concrete schedule registrations: a colon-free id
fires on its own id; an id holding a colon does not fire on the full id. -/
theorem schedule_key_and_dispatch_witness :
    findScheduled [(scheduleKey "backup".toList "0 0 * * *".toList, schedHandler)]
        "backup".toList = some schedHandler
    ∧ findScheduled [(scheduleKey "a:b".toList "* *".toList, schedHandler)]
        "a:b".toList = none :=
  ⟨schedule_key_and_dispatch.2.2.2.1 "backup".toList "0 0 * * *".toList schedHandler
      (by decide),
   (schedule_key_and_dispatch.2.2.2.2 "a:b".toList "* *".toList schedHandler
      (by decide)).1⟩

end Birdactyl
